import Mathlib

/-!
Shallow embedding of the ALEFGAME rule engine
(`src/components/AlefGame.jsx`) together with proofs of the spec claims.

Numbers that are JS `Number`s (coordinates, sizes, timestamps, scores) are
modelled as rationals; integer identifiers and counters are naturals.  JS
`Map`/`Set` objects are modelled as association lists with JS insertion-order
semantics (`Map.set` updates a present key in place and appends an absent
one; iteration follows list order, which is key-insertion order).
-/

namespace AlefGame

/-- JS `Math.round`: round half toward positive infinity. -/
def jsRound (q : ℚ) : ℤ := ⌊q + 1/2⌋

/-- `clamp(n, a, b)` from the source: `Math.max(a, Math.min(b, n))`. -/
def clamp (n a b : ℚ) : ℚ := max a (min b n)

/-! ### JS `Map` model (association list, insertion order) -/

/-- `Map.set`: update the value of a present key in place, otherwise append. -/
def mapSet {α : Type} (m : List (ℕ × α)) (k : ℕ) (v : α) : List (ℕ × α) :=
  if m.any (fun p => p.1 == k) then
    m.map (fun p => if p.1 == k then (k, v) else p)
  else
    m ++ [(k, v)]

/-- `Map.get`: value of the first (hence unique) pair with the given key. -/
def mapGet {α : Type} (m : List (ℕ × α)) (k : ℕ) : Option α :=
  (m.find? (fun p => p.1 == k)).map (·.2)

/-! ### Tiles and rectangles -/

/-- A board tile: `{tileId, letterId, x, y, z, removed, animatingOut, covered}`.
`tileId` is the numeric index `i` of the source ids `t${i}`. -/
structure Tile where
  tileId : ℕ
  letterId : ℕ
  x : ℚ
  y : ℚ
  z : ℕ
  removed : Bool
  animatingOut : Bool
  covered : Bool
deriving DecidableEq, Repr

structure Rect where
  left : ℚ
  top : ℚ
  right : ℚ
  bottom : ℚ
deriving DecidableEq, Repr

/-- `rectsOverlapAny` from the source. -/
def rectsOverlapAny (r1 r2 : Rect) : Bool :=
  !(decide (r2.left ≥ r1.right) || decide (r2.right ≤ r1.left) ||
    decide (r2.top ≥ r1.bottom) || decide (r2.bottom ≤ r1.top))

/-- `tileRectBase`: layer-shifted bounding box shrunk by
`pad = Math.max(1, Math.round(tileW * 0.02))`. -/
def tileRectBase (t : Tile) (tileW tileH zOffsetX zOffsetY : ℚ) : Rect :=
  let pad : ℚ := max 1 ((jsRound (tileW * (2/100)) : ℤ) : ℚ)
  let left := t.x + (t.z : ℚ) * zOffsetX
  let top := t.y - (t.z : ℚ) * zOffsetY
  { left := left + pad
    top := top + pad
    right := left + tileW - pad
    bottom := top + tileH - pad }

/-! ### Occlusion solver (`computeTileStatus`) -/

/-- The `rectById` map of `computeTileStatus`, as a total function
(every id queried by the source is present; the default is dead code). -/
def rectFor (aliveTiles : List Tile) (tileW tileH zOffsetX zOffsetY : ℚ)
    (id : ℕ) : Rect :=
  (mapGet
      (aliveTiles.foldl
        (fun m t => mapSet m t.tileId (tileRectBase t tileW tileH zOffsetX zOffsetY))
        [])
      id).getD ⟨0, 0, 0, 0⟩

/-- First pass of `computeTileStatus` for one tile: the loop breaks on the
first distinct overlapping tile with `o.z ≥ t.z` (overlapping tiles with a
lower layer are skipped), reporting `"blocked:overlap-above"` when `o.z > t.z`
and `"blocked:overlap-same"` when `o.z = t.z`. -/
def pass1Reason (rect : ℕ → Rect) (aliveTiles : List Tile) (t : Tile) :
    Option String :=
  (aliveTiles.find? (fun o =>
      !(o.tileId == t.tileId) &&
      rectsOverlapAny (rect t.tileId) (rect o.tileId) &&
      decide (t.z ≤ o.z))).map
    (fun o => if t.z < o.z then "blocked:overlap-above" else "blocked:overlap-same")

/-- Ids collected into `blockedFromTop ∪ blockedSameLayer` by the first pass. -/
def blockedIds (rect : ℕ → Rect) (aliveTiles : List Tile) : List ℕ :=
  (aliveTiles.filter (fun t => (pass1Reason rect aliveTiles t).isSome)).map
    (·.tileId)

/-- One step of the first-pass loop over `reasonById`. -/
def pass1Fold (rect : ℕ → Rect) (aliveTiles : List Tile)
    (m : List (ℕ × String)) (t : Tile) : List (ℕ × String) :=
  match pass1Reason rect aliveTiles t with
  | some r => mapSet m t.tileId r
  | none => m

/-- The `reasonById` contents after the first pass, in iteration order. -/
def reasonsPass1 (rect : ℕ → Rect) (aliveTiles : List Tile) :
    List (ℕ × String) :=
  aliveTiles.foldl (pass1Fold rect aliveTiles) []

/-- Vertical-overlap test of the lateral pass:
`Math.min(rt.bottom, ro.bottom) - Math.max(rt.top, ro.top) > 0`. -/
def verticalOverlap (rt ro : Rect) : Bool :=
  decide (0 < min rt.bottom ro.bottom - max rt.top ro.top)

/-- Left-neighbor detection of the lateral pass (the loop only sets the flag,
so its final value is an `any` over the layer; the `break` once both flags are
set cannot change either flag). -/
def hasLeftNeighbor (rect : ℕ → Rect) (sideGap : ℚ) (layerTiles : List Tile)
    (t : Tile) : Bool :=
  layerTiles.any (fun o =>
    !(o.tileId == t.tileId) &&
    verticalOverlap (rect t.tileId) (rect o.tileId) &&
    decide ((rect o.tileId).right ≤ (rect t.tileId).left) &&
    decide ((rect t.tileId).left - (rect o.tileId).right ≤ sideGap))

/-- Right-neighbor detection of the lateral pass. -/
def hasRightNeighbor (rect : ℕ → Rect) (sideGap : ℚ) (layerTiles : List Tile)
    (t : Tile) : Bool :=
  layerTiles.any (fun o =>
    !(o.tileId == t.tileId) &&
    verticalOverlap (rect t.tileId) (rect o.tileId) &&
    decide ((rect t.tileId).right ≤ (rect o.tileId).left) &&
    decide ((rect o.tileId).left - (rect t.tileId).right ≤ sideGap))

/-- The lateral freedom test of the second pass: at least one side lacks a
neighbor among the same-layer tiles. -/
def freeCond (rect : ℕ → Rect) (aliveTiles : List Tile) (sideGap : ℚ)
    (t : Tile) : Bool :=
  let layerTiles := aliveTiles.filter (fun o => o.z == t.z)
  !hasLeftNeighbor rect sideGap layerTiles t ||
    !hasRightNeighbor rect sideGap layerTiles t

/-- One step of the second pass of `computeTileStatus`: skip tiles blocked by
the first pass, otherwise add the tile to `free` when at least one side lacks
a neighbor, and record `"blocked:lateral"` otherwise. -/
def pass2Step (rect : ℕ → Rect) (aliveTiles : List Tile) (blocked : List ℕ)
    (sideGap : ℚ) (acc : List ℕ × List (ℕ × String)) (t : Tile) :
    List ℕ × List (ℕ × String) :=
  if t.tileId ∈ blocked then acc
  else if freeCond rect aliveTiles sideGap t then
    (acc.1 ++ [t.tileId], acc.2)
  else
    (acc.1, mapSet acc.2 t.tileId "blocked:lateral")

/-- `computeTileStatus(aliveTiles, tileW, tileH, zOffsetX, zOffsetY,
sideGapFactor) → (free, reasonById)`. -/
def computeTileStatus (aliveTiles : List Tile)
    (tileW tileH zOffsetX zOffsetY sideGapFactor : ℚ) :
    List ℕ × List (ℕ × String) :=
  let rect := rectFor aliveTiles tileW tileH zOffsetX zOffsetY
  let blocked := blockedIds rect aliveTiles
  let sideGap := tileW * sideGapFactor
  aliveTiles.foldl (pass2Step rect aliveTiles blocked sideGap)
    ([], reasonsPass1 rect aliveTiles)

/-! ### Layout (`createLayoutPool`, `buildLayout`) -/

structure Slot where
  gx : ℕ
  gy : ℕ
  z : ℕ
deriving DecidableEq, Repr

/-- The fixed coordinate pool: 24 base slots followed by 28 extras. -/
def createLayoutPool : List Slot :=
  [⟨1, 2, 0⟩, ⟨2, 2, 0⟩, ⟨3, 2, 0⟩, ⟨4, 2, 0⟩,
   ⟨1, 3, 0⟩, ⟨2, 3, 0⟩, ⟨3, 3, 0⟩, ⟨4, 3, 0⟩,
   ⟨2, 4, 0⟩, ⟨3, 4, 0⟩, ⟨2, 1, 0⟩, ⟨3, 1, 0⟩,
   ⟨2, 2, 1⟩, ⟨3, 2, 1⟩, ⟨2, 3, 1⟩, ⟨3, 3, 1⟩,
   ⟨2, 1, 1⟩, ⟨3, 1, 1⟩, ⟨2, 4, 1⟩, ⟨3, 4, 1⟩,
   ⟨2, 2, 2⟩, ⟨3, 2, 2⟩, ⟨2, 3, 2⟩, ⟨3, 3, 2⟩,
   ⟨0, 2, 0⟩, ⟨5, 2, 0⟩, ⟨0, 3, 0⟩, ⟨5, 3, 0⟩,
   ⟨1, 0, 0⟩, ⟨4, 0, 0⟩, ⟨1, 5, 0⟩, ⟨4, 5, 0⟩,
   ⟨2, 0, 0⟩, ⟨3, 0, 0⟩, ⟨2, 5, 0⟩, ⟨3, 5, 0⟩,
   ⟨1, 2, 1⟩, ⟨4, 2, 1⟩, ⟨1, 3, 1⟩, ⟨4, 3, 1⟩,
   ⟨2, 0, 1⟩, ⟨3, 0, 1⟩, ⟨2, 5, 1⟩, ⟨3, 5, 1⟩,
   ⟨2, 1, 2⟩, ⟨3, 1, 2⟩, ⟨2, 4, 2⟩, ⟨3, 4, 2⟩,
   ⟨1, 2, 2⟩, ⟨4, 2, 2⟩,
   ⟨2, 2, 3⟩, ⟨3, 2, 3⟩]

/-- One produced slot position: `{tileId: t${i}, x, y, z}` with the numeric
index standing for the string id. -/
structure PosPx where
  tileId : ℕ
  x : ℚ
  y : ℚ
  z : ℕ
deriving DecidableEq, Repr

structure Layout where
  boardW : ℚ
  boardH : ℚ
  positionsPx : List PosPx
deriving DecidableEq, Repr

/-- Minimum of a list of naturals, as used for `Math.min(...gxs)`
(the empty case is dead code for every in-app tile count). -/
def listMin : List ℕ → ℕ
  | [] => 0
  | x :: xs => xs.foldl min x

def listMax : List ℕ → ℕ
  | [] => 0
  | x :: xs => xs.foldl max x

/-- `buildLayout(tileW, tileH, level, tileCount)`: slices the pool with
`pool.slice(0, Math.min(tileCount, pool.length))` and converts grid
coordinates to pixels. -/
def buildLayout (tileW tileH : ℚ) (tileCount : ℕ) : Layout :=
  let pool := createLayoutPool
  let layout := pool.take (min tileCount pool.length)
  let stepX := tileW * (102/100)
  let stepY := tileH * (102/100)
  let gxs := layout.map (·.gx)
  let gys := layout.map (·.gy)
  let minX := listMin gxs
  let maxX := listMax gxs
  let minY := listMin gys
  let maxY := listMax gys
  let spanX := ((maxX : ℚ) - (minX : ℚ)) * stepX + tileW
  let spanY := ((maxY : ℚ) - (minY : ℚ)) * stepY + tileH
  let pad : ℚ := max 18 ((jsRound (tileW * (25/100)) : ℤ) : ℚ)
  let boardW := spanX + pad * 2
  let boardH := spanY + pad * 2
  let positionsPx :=
    (layout.zip (List.range layout.length)).map (fun pi =>
      { tileId := pi.2
        x := pad + ((pi.1.gx : ℚ) - (minX : ℚ)) * stepX
        y := pad + ((pi.1.gy : ℚ) - (minY : ℚ)) * stepY
        z := pi.1.z })
  { boardW := boardW, boardH := boardH, positionsPx := positionsPx }

/-! ### Fisher–Yates `shuffle` -/

/-- One JS array swap `[a[i], a[j]] = [a[j], a[i]]` (both indices are in
bounds at every call site of the shuffle loop). -/
def jsSwap {α : Type} (l : List α) (i j : ℕ) : List α :=
  match l[i]?, l[j]? with
  | some a, some b => (l.set i b).set j a
  | _, _ => l

/-- The shuffle loop, iterating `i` from `a.length - 1` down to `1`;
`rand i % (i + 1)` models `(Math.random() * (i + 1)) | 0`. -/
def fyLoop {α : Type} (rand : ℕ → ℕ) : ℕ → List α → List α
  | 0, a => a
  | i + 1, a => fyLoop rand i (jsSwap a (i + 1) (rand (i + 1) % (i + 2)))

/-- `shuffle(arr)` parameterised by the random-index source. -/
def shuffle {α : Type} (rand : ℕ → ℕ) (arr : List α) : List α :=
  fyLoop rand (arr.length - 1) arr

/-! ### Tray and game state -/

def TRAY_LIMIT : ℕ := 4
def BOARD_REMOVE_MS : ℚ := 240
def TRAY_MATCH_MS : ℚ := 1450

/-- A tray entry `{trayId, tileId, letterId, glowUntil, matchedOut}`;
`trayId` is an opaque fresh identifier. -/
structure TrayEntry where
  trayId : ℕ
  tileId : ℕ
  letterId : ℕ
  glowUntil : ℚ
  matchedOut : Bool
deriving DecidableEq, Repr

/-- A history snapshot `{tiles, tray, gameState}` (the JSON round-trip
deep clone is the identity on this data). -/
structure Snapshot where
  tiles : List Tile
  tray : List TrayEntry
  gameState : String
deriving DecidableEq, Repr

/-- The mutable game state owned by the component. -/
structure Game where
  gameState : String
  tiles : List Tile
  tray : List TrayEntry
  history : List Snapshot
  moveCount : ℕ
deriving DecidableEq, Repr

/-- Geometry inputs of the component (`tileW`, `tileH`, the derived
`zOffsetX = tileW*0.08`, `zOffsetY = tileH*0.07`, and
`levelConfig.sideGapFactor`), bundled for `pickTile`. -/
structure Cfg where
  tileW : ℚ
  tileH : ℚ
  zOffsetX : ℚ
  zOffsetY : ℚ
  sideGapFactor : ℚ
deriving DecidableEq, Repr

/-- `aliveTiles`: tiles that are neither removed nor animating out. -/
def aliveTiles (tiles : List Tile) : List Tile :=
  tiles.filter (fun t => !t.removed && !t.animatingOut)

/-- One step of the counting loop of `tryRemovePairInTray`: skip `matchedOut`
entries and bump the count of the entry's letter. -/
def countStep (m : List (ℕ × ℕ)) (it : TrayEntry) : List (ℕ × ℕ) :=
  if it.matchedOut then m
  else mapSet m it.letterId ((mapGet m it.letterId).getD 0 + 1)

/-- The counting loop of `tryRemovePairInTray`. -/
def pairCounts (tray : List TrayEntry) : List (ℕ × ℕ) :=
  tray.foldl countStep []

/-- Number of non-`matchedOut` tray entries carrying the letter. -/
def pendingCount (tray : List TrayEntry) (letterId : ℕ) : ℕ :=
  (tray.filter (fun e => !e.matchedOut && e.letterId == letterId)).length

/-- How `tryRemovePairInTray` marks one member of the resolved pair. -/
def markEntry (now : ℚ) (e : TrayEntry) : TrayEntry :=
  { e with matchedOut := true, glowUntil := now + TRAY_MATCH_MS }

/-- The id-collecting loop: trayIds of the first two non-`matchedOut`
entries carrying the letter. -/
def firstTwoIds (tray : List TrayEntry) (letterId : ℕ) : List ℕ :=
  ((tray.filter (fun it => it.letterId == letterId && !it.matchedOut)).map
    (·.trayId)).take 2

/-- `tryRemovePairInTray(nextTray)`: resolve at most one pair per call, for
the first counted letter with count ≥ 2; `now` stands for `Date.now()`.  The
scheduled deletion of the two marked entries is the separate event
`trayMatchFire`. -/
def tryRemovePairInTray (now : ℚ) (tray : List TrayEntry) : List TrayEntry :=
  let counts := pairCounts tray
  match counts.find? (fun p => decide (2 ≤ p.2)) with
  | none => tray
  | some p =>
    let ids := firstTwoIds tray p.1
    if ids.length < 2 then tray
    else
      tray.map (fun it =>
        if it.trayId ∈ ids then markEntry now it else it)

/-- The body of the `setTimeout` scheduled by `tryRemovePairInTray`:
drop the captured trayIds from the tray. -/
def trayMatchFire (ids : List ℕ) (g : Game) : Game :=
  { g with tray := g.tray.filter (fun it => !(it.trayId ∈ ids)) }

/-- The body of the `setTimeout` scheduled by `pickTile`: mark the picked
tile `removed`. -/
def boardRemoveFire (tileId : ℕ) (g : Game) : Game :=
  { g with tiles := g.tiles.map (fun x =>
      if x.tileId == tileId then { x with removed := true } else x) }

/-- `pushHistory` appends a snapshot of the given pre-mutation state. -/
def pushHistory (g : Game) : Game :=
  { g with history := g.history ++ [⟨g.tiles, g.tray, g.gameState⟩] }

/-- `undo()`: pop the most recent snapshot, restoring tiles, tray and
game state; a no-op on empty history. -/
def undo (g : Game) : Game :=
  match g.history.getLast? with
  | none => g
  | some last =>
    { g with
        tiles := last.tiles
        tray := last.tray
        gameState := last.gameState
        history := g.history.dropLast }

/-- `pickTile(tileId)`, the sole activation entry point.  `now` stands for
`Date.now()` and `freshTrayId` for the generated `trayId` string. -/
def pickTile (cfg : Cfg) (now : ℚ) (freshTrayId : ℕ) (tileId : ℕ)
    (g : Game) : Game :=
  if g.gameState ≠ "playing" then g
  else
    match g.tiles.find? (fun x => x.tileId == tileId) with
    | none => g
    | some t =>
      if t.removed || t.animatingOut then g
      else
        let status := computeTileStatus (aliveTiles g.tiles)
          cfg.tileW cfg.tileH cfg.zOffsetX cfg.zOffsetY cfg.sideGapFactor
        if tileId ∉ status.1 then g
        else if t.covered then
          { g with tiles := g.tiles.map (fun x =>
              if x.tileId == tileId then { x with covered := false } else x) }
        else if TRAY_LIMIT ≤ g.tray.length then
          { g with gameState := "lose" }
        else
          let g1 := pushHistory g
          let nextTiles := g.tiles.map (fun x =>
            if x.tileId == tileId then { x with animatingOut := true } else x)
          let nextTray := g.tray ++
            [{ trayId := freshTrayId, tileId := tileId, letterId := t.letterId
               glowUntil := now + 520, matchedOut := false }]
          if TRAY_LIMIT < nextTray.length then
            { g1 with tiles := nextTiles, tray := nextTray, gameState := "lose" }
          else
            let cleaned := tryRemovePairInTray now nextTray
            { g1 with
                tiles := nextTiles
                tray := cleaned
                moveCount := g.moveCount + 1 }

/-- The counter-driven reassignment inside `reshuffle`:
`tiles.map(t => t.removed ? t : {...t, letterId: mixed[k++]})`.  The
out-of-range read is dead code: `mixed` holds one letter per live tile. -/
def reassign : List ℕ → List Tile → List Tile
  | _, [] => []
  | mixed, t :: ts =>
    if t.removed then t :: reassign mixed ts
    else { t with letterId := mixed.headD 0 } :: reassign (mixed.drop 1) ts

/-- `reshuffle()`: no-op unless playing; snapshots, then permutes the
letters of the non-removed tiles in place. -/
def reshuffle (rand : ℕ → ℕ) (g : Game) : Game :=
  if g.gameState ≠ "playing" then g
  else
    let g1 := pushHistory g
    let alive := g.tiles.filter (fun t => !t.removed)
    let ids := alive.map (·.letterId)
    let mixed := shuffle rand ids
    { g1 with tiles := reassign mixed g.tiles }

/-! ### Level configuration and scoring -/

/-- `levelConfig` tile count: `clamp(24 + (level-1)*2, 24, 50)`. -/
def levelTileCount (level : ℕ) : ℚ :=
  clamp (24 + ((level : ℚ) - 1) * 2) 24 50

/-- `levelConfig` cover rate: `clamp((level-1)*0.06, 0, 0.45)`. -/
def levelCoverRate (level : ℕ) : ℚ :=
  clamp (((level : ℚ) - 1) * (6/100)) 0 (45/100)

/-- The win-effect merit computation: tier base from the blended score, then
`Math.round(baseMerits * levelMultiplier)`.  Returns
`(earned, totalMerits + earned)`. -/
def winEffect (level elapsedSec moveCount : ℕ) (totalMerits : ℤ) : ℤ × ℤ :=
  let timeTarget : ℚ := 90 + ((level : ℚ) - 1) * 15
  let moveTarget : ℚ := 20 + ((level : ℚ) - 1) * 3
  let timeRatio := (elapsedSec : ℚ) / timeTarget
  let moveRatio := (moveCount : ℚ) / moveTarget
  let scoreTime := clamp (1 - (timeRatio - 1) * (1/2)) 0 1
  let scoreMoves := clamp (1 - (moveRatio - 1) * (1/2)) 0 1
  let scoreFinal := scoreTime * (35/100) + scoreMoves * (65/100)
  let baseMerits : ℚ :=
    if 85/100 ≤ scoreFinal then 10
    else if 7/10 ≤ scoreFinal then 8
    else if 55/100 ≤ scoreFinal then 6
    else if 2/5 ≤ scoreFinal then 4
    else 2
  let levelMultiplier : ℚ := 1 + ((level : ℚ) - 1) * (1/10)
  let earned := jsRound (baseMerits * levelMultiplier)
  (earned, totalMerits + earned)

/-- Modelled from the spec (§4.4 of `spec.md`) purely for comparison with
`winEffect`: the merit formula exactly as the claim words it — tier table
`<0.40→2, [0.40,0.55)→4, [0.55,0.70)→6, [0.70,0.85)→8, ≥0.85→10` applied to
`0.35·clamp(1−(T/timeTarget−1)·0.5,0,1) + 0.65·clamp(1−(M/moveTarget−1)·0.5,0,1)`,
then `round(base · (1 + 0.1·(L−1)))`. -/
def claimMerits (level elapsedSec moveCount : ℕ) : ℤ :=
  let score : ℚ :=
    (35/100) * clamp (1 - ((elapsedSec : ℚ) / (90 + 15 * ((level : ℚ) - 1)) - 1) * (1/2)) 0 1 +
    (65/100) * clamp (1 - ((moveCount : ℚ) / (20 + 3 * ((level : ℚ) - 1)) - 1) * (1/2)) 0 1
  let base : ℚ :=
    if score < 2/5 then 2
    else if score < 55/100 then 4
    else if score < 7/10 then 6
    else if score < 85/100 then 8
    else 10
  jsRound (base * (1 + (1/10) * ((level : ℚ) - 1)))

/-! ### Session start (`initGame`) -/

/-- The pair-pool loop of `initGame`: successive shuffled copies of the
level's letter subset, concatenated and truncated once `base.length` reaches
`pairCount` (each cycle contributes at least one id whenever the subset is
nonempty, so `need` cycles always suffice). -/
def drawBase (randc : ℕ → ℕ → ℕ) (letters10 : List ℕ) (need : ℕ) : List ℕ :=
  (((List.range need).map (fun c => shuffle (randc c) letters10)).flatten).take need

/-- `initGame`'s tile construction from a layout: builds the doubled,
shuffled symbol assignment and the random cover set, then maps the layout
slots to tiles.  `letters10` stands for `letters.slice(0, 10)` (the symbol
catalog is data outside `src/`); the `rand*` arguments model the
`Math.random()` draws. -/
def initGameTiles (randc : ℕ → ℕ → ℕ) (randPair randCover : ℕ → ℕ)
    (letters10 : List ℕ) (coverRate : ℚ) (layout : List PosPx) : List Tile :=
  let pairCount : ℚ := (layout.length : ℚ) / 2
  let base := drawBase randc letters10 ⌈pairCount⌉₊
  let pairIds := shuffle randPair (base ++ base)
  let coverCount := (jsRound ((pairIds.length : ℚ) * coverRate)).toNat
  let coverSet := (shuffle randCover (List.range pairIds.length)).take coverCount
  (layout.zip (List.range layout.length)).map (fun pi =>
    { tileId := pi.1.tileId
      letterId := pairIds.getD pi.2 0
      x := pi.1.x
      y := pi.1.y
      z := pi.1.z
      removed := false
      animatingOut := false
      covered := pi.2 ∈ coverSet })

/-- `initGame` resets the session around the freshly built tiles. -/
def initGame (randc : ℕ → ℕ → ℕ) (randPair randCover : ℕ → ℕ)
    (letters10 : List ℕ) (coverRate : ℚ) (layout : List PosPx) : Game :=
  { gameState := "playing"
    tiles := initGameTiles randc randPair randCover letters10 coverRate layout
    tray := []
    history := []
    moveCount := 0 }

/-! ### Concrete instances used by the closed theorems -/

/-- The component's default geometry: `tileW = 72`, `tileH = 84`,
`zOffsetX = tileW·0.08`, `zOffsetY = tileH·0.07`, `sideGapFactor = 0.18`. -/
def defaultCfg : Cfg :=
  { tileW := 72, tileH := 84, zOffsetX := 72 * (8/100), zOffsetY := 84 * (7/100)
    sideGapFactor := 18/100 }

/-- A single uncovered live tile; alone on the board, it is free. -/
def soloTile : Tile :=
  { tileId := 0, letterId := 5, x := 0, y := 0, z := 0
    removed := false, animatingOut := false, covered := false }

/-- A game whose tray already holds `TRAY_LIMIT` entries. -/
def fullTrayGame : Game :=
  { gameState := "playing"
    tiles := [soloTile]
    tray :=
      [⟨10, 1, 1, 0, false⟩, ⟨11, 2, 2, 0, false⟩,
       ⟨12, 3, 3, 0, false⟩, ⟨13, 4, 4, 0, false⟩]
    history := []
    moveCount := 4 }

/-- A game in the middle of play with room in the tray. -/
def roomyGame : Game :=
  { gameState := "playing"
    tiles := [soloTile]
    tray := [⟨10, 1, 1, 0, false⟩]
    history := [⟨[], [], "playing"⟩]
    moveCount := 1 }

/-- A lost game that still has an undo snapshot, as produced by playing some
moves and then overflowing the tray. -/
def lostGame : Game :=
  { gameState := "lose"
    tiles := [soloTile]
    tray :=
      [⟨10, 1, 1, 0, false⟩, ⟨11, 2, 2, 0, false⟩,
       ⟨12, 3, 3, 0, false⟩, ⟨13, 4, 4, 0, false⟩]
    history := [⟨[soloTile], [⟨10, 1, 1, 0, false⟩], "playing"⟩]
    moveCount := 4 }

/-- Two stacked overlapping tiles: the lower one has no same-layer
neighbor at all, yet is occluded from above. -/
def stackedTiles : List Tile :=
  [⟨0, 5, 0, 0, 0, false, false, false⟩, ⟨1, 6, 0, 0, 1, false, false, false⟩]

/-- Two same-layer tiles far apart: no overlap of any kind. -/
def apartTiles : List Tile :=
  [⟨0, 5, 0, 0, 0, false, false, false⟩, ⟨1, 6, 0, 1000, 0, false, false, false⟩]

/-- Everything of a tile except its `letterId`, for stating that reshuffling
moves only symbols. -/
def tileShape (t : Tile) : ℕ × ℚ × ℚ × ℕ × Bool × Bool × Bool :=
  (t.tileId, t.x, t.y, t.z, t.removed, t.animatingOut, t.covered)

/-- The letters of the tray entries still awaiting a pair. -/
def pendingLetters (tray : List TrayEntry) : List ℕ :=
  (tray.filter (fun e => !e.matchedOut)).map (·.letterId)

/-- The tray invariant: pending letters are pairwise distinct and trayIds
are unique. -/
def trayInv (tray : List TrayEntry) : Prop :=
  (pendingLetters tray).Nodup ∧ (tray.map TrayEntry.trayId).Nodup

/-- The session invariant: the live tray and the tray of every undo snapshot
satisfy the tray invariant. -/
def Inv (g : Game) : Prop :=
  trayInv g.tray ∧ ∀ s ∈ g.history, trayInv s.tray

instance (tray : List TrayEntry) : Decidable (trayInv tray) := by
  unfold trayInv
  infer_instance

instance (g : Game) : Decidable (Inv g) := by
  unfold Inv
  infer_instance

/-! ### Helper lemmas: Fisher–Yates shuffling permutes -/

theorem cons_set_perm {α : Type} (a : α) :
    ∀ (xs : List α) (m : ℕ) (b : α), xs[m]? = some b →
      (b :: xs.set m a).Perm (a :: xs)
  | [], m, b => by simp
  | x :: xs, 0, b => by
    intro h
    have hb : x = b := by simpa using h
    subst hb
    show (x :: a :: xs).Perm (a :: x :: xs)
    exact List.Perm.swap a x xs
  | x :: xs, m + 1, b => by
    intro h
    simp only [List.getElem?_cons_succ] at h
    have ih := cons_set_perm a xs m b h
    show (b :: x :: xs.set m a).Perm (a :: x :: xs)
    exact ((List.Perm.swap x b (xs.set m a)).trans (ih.cons x)).trans
      (List.Perm.swap a x xs)

theorem set_set_perm {α : Type} :
    ∀ (l : List α) (i j : ℕ) (a b : α), l[i]? = some a → l[j]? = some b →
      ((l.set i b).set j a).Perm l
  | [], _, _, _, _ => by
    intro h1 _
    simp at h1
  | x :: xs, 0, 0, a, b => by
    intro h1 h2
    have ha : x = a := by simpa using h1
    have hb : x = b := by simpa using h2
    subst ha; subst hb
    show (x :: xs).Perm (x :: xs)
    exact List.Perm.refl _
  | x :: xs, 0, m + 1, a, b => by
    intro h1 h2
    have ha : x = a := by simpa using h1
    simp only [List.getElem?_cons_succ] at h2
    subst ha
    show (b :: xs.set m x).Perm (x :: xs)
    exact cons_set_perm x xs m b h2
  | x :: xs, n + 1, 0, a, b => by
    intro h1 h2
    simp only [List.getElem?_cons_succ] at h1
    have hb : x = b := by simpa using h2
    subst hb
    show (a :: xs.set n x).Perm (x :: xs)
    exact cons_set_perm x xs n a h1
  | x :: xs, n + 1, m + 1, a, b => by
    intro h1 h2
    simp only [List.getElem?_cons_succ] at h1 h2
    show (x :: (xs.set n b).set m a).Perm (x :: xs)
    exact (set_set_perm xs n m a b h1 h2).cons x

theorem jsSwap_perm {α : Type} (l : List α) (i j : ℕ) :
    (jsSwap l i j).Perm l := by
  unfold jsSwap
  cases h1 : l[i]? with
  | none => cases l[j]? <;> exact List.Perm.refl l
  | some a =>
    cases h2 : l[j]? with
    | none => exact List.Perm.refl l
    | some b => exact set_set_perm l i j a b h1 h2

theorem fyLoop_perm {α : Type} (rand : ℕ → ℕ) :
    ∀ (i : ℕ) (a : List α), (fyLoop rand i a).Perm a
  | 0, a => List.Perm.refl a
  | i + 1, a =>
    (fyLoop_perm rand i _).trans
      (jsSwap_perm a (i + 1) (rand (i + 1) % (i + 2)))

/-- `shuffle` returns a permutation of its input, for every random source. -/
theorem shuffle_perm {α : Type} (rand : ℕ → ℕ) (arr : List α) :
    (shuffle rand arr).Perm arr :=
  fyLoop_perm rand (arr.length - 1) arr

/-! ### Helper lemmas: `reassign` -/

/-- `reassign` hands the mixed letters to the non-removed tiles in order. -/
theorem reassign_letters :
    ∀ (tiles : List Tile) (mixed : List ℕ),
      mixed.length = (tiles.filter (fun t => !t.removed)).length →
      ((reassign mixed tiles).filter (fun t => !t.removed)).map (·.letterId) =
        mixed
  | [], mixed => by
    intro h
    simp only [List.filter_nil, List.length_nil, List.length_eq_zero] at h
    subst h
    rfl
  | t :: ts, mixed => by
    intro h
    by_cases hr : t.removed = true
    · rw [reassign, if_pos hr]
      have h2 : mixed.length = (ts.filter (fun t => !t.removed)).length := by
        simpa [List.filter_cons, hr] using h
      have hstep :
          (t :: reassign mixed ts).filter (fun t => !t.removed) =
            (reassign mixed ts).filter (fun t => !t.removed) := by
        simp [List.filter_cons, hr]
      rw [hstep]
      exact reassign_letters ts mixed h2
    · rw [reassign, if_neg hr]
      have hr2 : t.removed = false := by
        cases hv : t.removed
        · rfl
        · exact absurd hv hr
      have h2 : mixed.length = (ts.filter (fun t => !t.removed)).length + 1 := by
        simpa [List.filter_cons, hr2] using h
      cases mixed with
      | nil => simp at h2
      | cons m ms =>
        have h3 : ms.length = (ts.filter (fun t => !t.removed)).length := by
          simpa using h2
        have hstep :
            ({ t with letterId := (m :: ms).headD 0 } ::
                reassign ((m :: ms).drop 1) ts).filter (fun t => !t.removed) =
              { t with letterId := m } ::
                (reassign ms ts).filter (fun t => !t.removed) := by
          simp [List.filter_cons, hr2]
        rw [hstep, List.map_cons]
        exact congrArg (m :: ·) (reassign_letters ts ms h3)

/-- `reassign` changes nothing but `letterId`s. -/
theorem reassign_shape :
    ∀ (tiles : List Tile) (mixed : List ℕ),
      (reassign mixed tiles).map tileShape = tiles.map tileShape
  | [], _ => rfl
  | t :: ts, mixed => by
    by_cases hr : t.removed
    · rw [reassign, if_pos hr]
      simpa using reassign_shape ts mixed
    · rw [reassign, if_neg hr]
      simpa [tileShape] using reassign_shape ts (mixed.drop 1)

/-! ### Helper lemmas: the JS map model -/

theorem find?_map_update {α : Type} (k : ℕ) (v : α) :
    ∀ (m : List (ℕ × α)), m.any (fun p => p.1 == k) = true →
      ((m.map (fun p => if p.1 == k then (k, v) else p)).find?
          (fun p => p.1 == k)) = some (k, v)
  | [], h => by simp at h
  | p :: ps, h => by
    by_cases hp : (p.1 == k) = true
    · rw [List.map_cons, if_pos hp, List.find?_cons]
      simp
    · have h2 : ps.any (fun p => p.1 == k) = true := by
        simp only [List.any_cons, hp, Bool.false_or] at h
        exact h
      rw [List.map_cons, if_neg hp, List.find?_cons]
      simp only [hp, cond_false]
      exact find?_map_update k v ps h2

theorem find?_map_other {α : Type} (k k2 : ℕ) (v : α) (hne : k2 ≠ k) :
    ∀ (m : List (ℕ × α)),
      ((m.map (fun p => if p.1 == k then (k, v) else p)).find?
          (fun p => p.1 == k2)) = m.find? (fun p => p.1 == k2)
  | [] => rfl
  | p :: ps => by
    by_cases hp : (p.1 == k) = true
    · have hpk : p.1 = k := by simpa using hp
      have hnot : ((k, v).1 == k2) = false := by
        simp only [beq_eq_false_iff_ne, ne_eq]
        exact fun h => hne h.symm
      have hnot2 : (p.1 == k2) = false := by
        rw [hpk]
        simp only [beq_eq_false_iff_ne, ne_eq]
        exact fun h => hne h.symm
      rw [List.map_cons, if_pos hp, List.find?_cons, List.find?_cons]
      simp only [hnot, hnot2, cond_false]
      exact find?_map_other k k2 v hne ps
    · rw [List.map_cons, if_neg hp, List.find?_cons, List.find?_cons]
      cases hq : (p.1 == k2) with
      | true => rfl
      | false =>
        simp only [cond_false]
        exact find?_map_other k k2 v hne ps

theorem mapGet_mapSet_self {α : Type} (m : List (ℕ × α)) (k : ℕ) (v : α) :
    mapGet (mapSet m k v) k = some v := by
  unfold mapSet mapGet
  by_cases h : m.any (fun p => p.1 == k) = true
  · rw [if_pos h, find?_map_update k v m h]
    rfl
  · rw [if_neg h, List.find?_append]
    have hnone : m.find? (fun p => p.1 == k) = none := by
      rw [List.find?_eq_none]
      intro x hx hpx
      exact h (List.any_eq_true.2 ⟨x, hx, hpx⟩)
    rw [hnone]
    simp

theorem mapGet_mapSet_ne {α : Type} (m : List (ℕ × α)) (k k2 : ℕ) (v : α)
    (hne : k2 ≠ k) : mapGet (mapSet m k v) k2 = mapGet m k2 := by
  unfold mapSet mapGet
  by_cases h : m.any (fun p => p.1 == k) = true
  · rw [if_pos h, find?_map_other k k2 v hne m]
  · rw [if_neg h, List.find?_append]
    have hsingle : ([(k, v)].find? (fun p => p.1 == k2)) = none := by
      have : ((k, v).1 == k2) = false := by
        simp
        exact fun hx => hne hx.symm
      simp [List.find?, this]
    rw [hsingle, Option.or_none]

theorem mapGet_mapSet_isSome {α : Type} (m : List (ℕ × α)) (k k2 : ℕ)
    (v : α) :
    (mapGet (mapSet m k v) k2).isSome ↔ k2 = k ∨ (mapGet m k2).isSome := by
  by_cases hk : k2 = k
  · subst hk
    simp [mapGet_mapSet_self]
  · rw [mapGet_mapSet_ne m k k2 v hk]
    simp [hk]

/-! ### Helper lemmas: the two passes of the occlusion solver -/

theorem blockedIds_mem (rect : ℕ → Rect) (alive : List Tile) (id : ℕ) :
    id ∈ blockedIds rect alive ↔
      ∃ t ∈ alive, t.tileId = id ∧ (pass1Reason rect alive t).isSome := by
  unfold blockedIds
  simp only [List.mem_map, List.mem_filter]
  constructor
  · rintro ⟨t, ⟨ht, hsome⟩, hid⟩
    exact ⟨t, ht, hid, hsome⟩
  · rintro ⟨t, ht, hid, hsome⟩
    exact ⟨t, ⟨ht, hsome⟩, hid⟩

theorem pass1_fold_isSome (rect : ℕ → Rect) (alive : List Tile) :
    ∀ (l : List Tile) (m : List (ℕ × String)) (id : ℕ),
      (mapGet (l.foldl (pass1Fold rect alive) m) id).isSome ↔
        (mapGet m id).isSome ∨
          ∃ t ∈ l, t.tileId = id ∧ (pass1Reason rect alive t).isSome
  | [], m, id => by simp
  | t :: l, m, id => by
    rw [List.foldl_cons, pass1_fold_isSome rect alive l _ id]
    unfold pass1Fold
    cases hr : pass1Reason rect alive t with
    | none =>
      simp only [List.mem_cons, hr]
      constructor
      · rintro (h | ⟨t2, ht2, hrest⟩)
        · exact Or.inl h
        · exact Or.inr ⟨t2, Or.inr ht2, hrest⟩
      · rintro (h | ⟨t2, ht2 | ht2, hid2, hsome2⟩)
        · exact Or.inl h
        · subst ht2
          rw [hr] at hsome2
          simp at hsome2
        · exact Or.inr ⟨t2, ht2, hid2, hsome2⟩
    | some r =>
      rw [mapGet_mapSet_isSome]
      simp only [List.mem_cons]
      constructor
      · rintro ((h | h) | ⟨t2, ht2, hrest⟩)
        · exact Or.inr ⟨t, Or.inl rfl, h.symm, by rw [hr]; rfl⟩
        · exact Or.inl h
        · exact Or.inr ⟨t2, Or.inr ht2, hrest⟩
      · rintro (h | ⟨t2, ht2 | ht2, hid2, hsome2⟩)
        · exact Or.inl (Or.inr h)
        · subst ht2
          exact Or.inl (Or.inl hid2.symm)
        · exact Or.inr ⟨t2, ht2, hid2, hsome2⟩

theorem reasonsPass1_isSome (rect : ℕ → Rect) (alive : List Tile) (id : ℕ) :
    (mapGet (reasonsPass1 rect alive) id).isSome ↔
      ∃ t ∈ alive, t.tileId = id ∧ (pass1Reason rect alive t).isSome := by
  unfold reasonsPass1
  rw [pass1_fold_isSome rect alive alive [] id]
  simp [mapGet]

theorem pass2_free_mem (rect : ℕ → Rect) (alive : List Tile)
    (blocked : List ℕ) (sideGap : ℚ) :
    ∀ (l : List Tile) (acc : List ℕ × List (ℕ × String)) (id : ℕ),
      id ∈ (l.foldl (pass2Step rect alive blocked sideGap) acc).1 ↔
        id ∈ acc.1 ∨ ∃ t ∈ l, t.tileId = id ∧ t.tileId ∉ blocked ∧
          freeCond rect alive sideGap t = true
  | [], acc, id => by simp
  | t :: l, acc, id => by
    rw [List.foldl_cons, pass2_free_mem rect alive blocked sideGap l _ id]
    unfold pass2Step
    by_cases hb : t.tileId ∈ blocked
    · rw [if_pos hb]
      simp only [List.mem_cons]
      constructor
      · rintro (h | ⟨t2, ht2, hrest⟩)
        · exact Or.inl h
        · exact Or.inr ⟨t2, Or.inr ht2, hrest⟩
      · rintro (h | ⟨t2, ht2 | ht2, hid2, hnb2, hf2⟩)
        · exact Or.inl h
        · subst ht2
          exact absurd hb hnb2
        · exact Or.inr ⟨t2, ht2, hid2, hnb2, hf2⟩
    · rw [if_neg hb]
      by_cases hf : freeCond rect alive sideGap t = true
      · rw [if_pos hf]
        simp only [List.mem_append, List.mem_cons, List.not_mem_nil, or_false,
          false_or]
        constructor
        · rintro ((h | h) | ⟨t2, ht2, hrest⟩)
          · exact Or.inl h
          · exact Or.inr ⟨t, Or.inl rfl, h.symm, hb, hf⟩
          · exact Or.inr ⟨t2, Or.inr ht2, hrest⟩
        · rintro (h | ⟨t2, ht2 | ht2, hid2, hnb2, hf2⟩)
          · exact Or.inl (Or.inl h)
          · subst ht2
            exact Or.inl (Or.inr hid2.symm)
          · exact Or.inr ⟨t2, ht2, hid2, hnb2, hf2⟩
      · rw [if_neg hf]
        simp only [List.mem_cons]
        constructor
        · rintro (h | ⟨t2, ht2, hrest⟩)
          · exact Or.inl h
          · exact Or.inr ⟨t2, Or.inr ht2, hrest⟩
        · rintro (h | ⟨t2, ht2 | ht2, hid2, hnb2, hf2⟩)
          · exact Or.inl h
          · subst ht2
            exact absurd hf2 hf
          · exact Or.inr ⟨t2, ht2, hid2, hnb2, hf2⟩

theorem pass2_reason_isSome (rect : ℕ → Rect) (alive : List Tile)
    (blocked : List ℕ) (sideGap : ℚ) :
    ∀ (l : List Tile) (acc : List ℕ × List (ℕ × String)) (id : ℕ),
      (mapGet (l.foldl (pass2Step rect alive blocked sideGap) acc).2 id).isSome ↔
        (mapGet acc.2 id).isSome ∨
          ∃ t ∈ l, t.tileId = id ∧ t.tileId ∉ blocked ∧
            freeCond rect alive sideGap t = false
  | [], acc, id => by simp
  | t :: l, acc, id => by
    rw [List.foldl_cons, pass2_reason_isSome rect alive blocked sideGap l _ id]
    unfold pass2Step
    by_cases hb : t.tileId ∈ blocked
    · rw [if_pos hb]
      simp only [List.mem_cons]
      constructor
      · rintro (h | ⟨t2, ht2, hrest⟩)
        · exact Or.inl h
        · exact Or.inr ⟨t2, Or.inr ht2, hrest⟩
      · rintro (h | ⟨t2, ht2 | ht2, hid2, hnb2, hf2⟩)
        · exact Or.inl h
        · subst ht2
          exact absurd hb hnb2
        · exact Or.inr ⟨t2, ht2, hid2, hnb2, hf2⟩
    · rw [if_neg hb]
      by_cases hf : freeCond rect alive sideGap t = true
      · rw [if_pos hf]
        simp only [List.mem_cons]
        constructor
        · rintro (h | ⟨t2, ht2, hrest⟩)
          · exact Or.inl h
          · exact Or.inr ⟨t2, Or.inr ht2, hrest⟩
        · rintro (h | ⟨t2, ht2 | ht2, hid2, hnb2, hf2⟩)
          · exact Or.inl h
          · subst ht2
            rw [hf] at hf2
            simp at hf2
          · exact Or.inr ⟨t2, ht2, hid2, hnb2, hf2⟩
      · rw [if_neg hf]
        simp only [List.mem_cons]
        have hf2 : freeCond rect alive sideGap t = false := by
          simpa using hf
        rw [mapGet_mapSet_isSome]
        constructor
        · rintro ((h | h) | ⟨t2, ht2, hrest⟩)
          · exact Or.inr ⟨t, Or.inl rfl, h.symm, hb, hf2⟩
          · exact Or.inl h
          · exact Or.inr ⟨t2, Or.inr ht2, hrest⟩
        · rintro (h | ⟨t2, ht2 | ht2, hid2, hnb2, hfx⟩)
          · exact Or.inl (Or.inr h)
          · subst ht2
            exact Or.inl (Or.inl hid2.symm)
          · exact Or.inr ⟨t2, ht2, hid2, hnb2, hfx⟩

/-! ### Helper lemmas: concrete solver evaluations -/

theorem stacked_eval : computeTileStatus stackedTiles 100 100 0 0 (18/100) =
    ([1], [(0, "blocked:overlap-above")]) := by
  norm_num [computeTileStatus, stackedTiles, rectFor, tileRectBase, jsRound,
    mapSet, mapGet, pass1Reason, blockedIds, reasonsPass1, pass1Fold,
    pass2Step, freeCond, hasLeftNeighbor, hasRightNeighbor, verticalOverlap,
    rectsOverlapAny, List.find?, List.foldl, List.filter, List.any]
  decide

theorem apart_same_free : ∀ o ∈ apartTiles, o.tileId ≠ 0 → o.z = 0 →
    rectsOverlapAny (rectFor apartTiles 100 100 0 0 0)
      (rectFor apartTiles 100 100 0 0 o.tileId) = false ∧
    verticalOverlap (rectFor apartTiles 100 100 0 0 0)
      (rectFor apartTiles 100 100 0 0 o.tileId) = false := by
  intro o ho hne hz
  simp only [apartTiles, List.mem_cons, List.not_mem_nil, or_false] at ho
  rcases ho with ho | ho
  · subst ho
    exact absurd rfl hne
  · subst ho
    norm_num [apartTiles, rectFor, tileRectBase, jsRound, mapSet, mapGet,
      verticalOverlap, rectsOverlapAny, List.find?, List.foldl]
    decide

/-! ### Helper lemmas: the pair-counting loop -/

theorem keys_map_update {α : Type} (m : List (ℕ × α)) (k : ℕ) (v : α) :
    (m.map (fun p => if p.1 == k then (k, v) else p)).map (·.1) =
      m.map (·.1) := by
  rw [List.map_map]
  apply List.map_congr_left
  intro p _
  by_cases hp : (p.1 == k) = true
  · have : p.1 = k := by simpa using hp
    simp [hp, this]
  · have : p.1 ≠ k := by simpa using hp
    simp [this]

theorem any_key_iff {α : Type} (m : List (ℕ × α)) (k : ℕ) :
    m.any (fun p => p.1 == k) = true ↔ k ∈ m.map (·.1) := by
  rw [List.any_eq_true]
  constructor
  · rintro ⟨p, hp, hpk⟩
    exact List.mem_map.2 ⟨p, hp, by simpa using hpk⟩
  · rintro hmem
    rcases List.mem_map.1 hmem with ⟨p, hp, hpk⟩
    exact ⟨p, hp, by simp [hpk]⟩

theorem keys_mapSet {α : Type} (m : List (ℕ × α)) (k : ℕ) (v : α) :
    (mapSet m k v).map (·.1) =
      if k ∈ m.map (·.1) then m.map (·.1) else m.map (·.1) ++ [k] := by
  unfold mapSet
  by_cases h : m.any (fun p => p.1 == k) = true
  · rw [if_pos h, keys_map_update, if_pos ((any_key_iff m k).1 h)]
  · rw [if_neg h, if_neg (fun hm => h ((any_key_iff m k).2 hm))]
    simp

theorem mapGet_eq_none_iff {α : Type} (m : List (ℕ × α)) (k : ℕ) :
    mapGet m k = none ↔ k ∉ m.map (·.1) := by
  unfold mapGet
  rw [Option.map_eq_none', List.find?_eq_none]
  constructor
  · intro h hmem
    rcases List.mem_map.1 hmem with ⟨p, hp, hpk⟩
    exact h p hp (by simp [hpk])
  · intro h p hp hpk
    exact h (List.mem_map.2 ⟨p, hp, by simpa using hpk⟩)

theorem countStep_matched (m : List (ℕ × ℕ)) (e : TrayEntry)
    (h : e.matchedOut = true) : countStep m e = m := by
  unfold countStep
  rw [if_pos h]

theorem countStep_pending (m : List (ℕ × ℕ)) (e : TrayEntry)
    (h : e.matchedOut = false) :
    countStep m e = mapSet m e.letterId ((mapGet m e.letterId).getD 0 + 1) := by
  unfold countStep
  rw [if_neg]
  rw [h]
  simp

/-- The pending count splits over an appended entry. -/
theorem pendingCount_append (l : List TrayEntry) (e : TrayEntry) (K : ℕ) :
    pendingCount (l ++ [e]) K =
      pendingCount l K +
        (if e.matchedOut = false ∧ e.letterId = K then 1 else 0) := by
  unfold pendingCount
  rw [List.filter_append, List.length_append]
  congr 1
  by_cases hm : e.matchedOut = false
  · by_cases hk : e.letterId = K
    · simp [hm, hk]
    · simp [hm, hk]
  · have : e.matchedOut = true := by
      cases h : e.matchedOut
      · exact absurd h hm
      · rfl
    simp [this]

/-- Values in the counts map are exactly the pending counts. -/
theorem pairCounts_get (K : ℕ) :
    ∀ (l : List TrayEntry),
      mapGet (l.foldl countStep []) K =
        if pendingCount l K = 0 then none else some (pendingCount l K) := by
  intro l
  induction l using List.reverseRecOn with
  | nil => simp [pendingCount, mapGet]
  | append_singleton l e ih =>
    rw [List.foldl_append, List.foldl_cons, List.foldl_nil,
      pendingCount_append]
    by_cases hm : e.matchedOut = true
    · rw [countStep_matched _ _ hm]
      simp only [hm, Bool.true_eq_false, false_and, if_false, Nat.add_zero]
      exact ih
    · have hm2 : e.matchedOut = false := by
        cases h : e.matchedOut
        · rfl
        · exact absurd h hm
      rw [countStep_pending _ _ hm2]
      by_cases hk : e.letterId = K
      · rw [hk, mapGet_mapSet_self, ih]
        simp only [hm2, hk, and_self, if_true]
        by_cases h0 : pendingCount l K = 0
        · simp [h0]
        · simp [h0]
      · rw [mapGet_mapSet_ne _ _ _ _ (fun h => hk h.symm), ih]
        simp [hk]

/-- Keys of the counts map are distinct. -/
theorem pairCounts_keys_nodup :
    ∀ (l : List TrayEntry), ((l.foldl countStep []).map (·.1)).Nodup := by
  intro l
  induction l using List.reverseRecOn with
  | nil => simp
  | append_singleton l e ih =>
    rw [List.foldl_append, List.foldl_cons, List.foldl_nil]
    by_cases hm : e.matchedOut = true
    · rw [countStep_matched _ _ hm]; exact ih
    · have hm2 : e.matchedOut = false := by
        cases h : e.matchedOut
        · rfl
        · exact absurd h hm
      rw [countStep_pending _ _ hm2, keys_mapSet]
      by_cases hk : e.letterId ∈ (l.foldl countStep []).map (·.1)
      · rw [if_pos hk]; exact ih
      · rw [if_neg hk]
        simp only [List.nodup_append, List.nodup_cons, List.not_mem_nil,
          not_false_eq_true, List.nodup_nil, and_true, true_and]
        exact ⟨ih, by simpa [List.disjoint_singleton] using hk⟩

/-- Every key of the counts map is the letter of some pending entry. -/
theorem pairCounts_keys_pending :
    ∀ (l : List TrayEntry) (K : ℕ), K ∈ (l.foldl countStep []).map (·.1) →
      ∃ e ∈ l, e.matchedOut = false ∧ e.letterId = K := by
  intro l
  induction l using List.reverseRecOn with
  | nil => simp
  | append_singleton l e ih =>
    intro K hK
    rw [List.foldl_append, List.foldl_cons, List.foldl_nil] at hK
    by_cases hm : e.matchedOut = true
    · rw [countStep_matched _ _ hm] at hK
      rcases ih K hK with ⟨e2, he2, h2⟩
      exact ⟨e2, List.mem_append_left _ he2, h2⟩
    · have hm2 : e.matchedOut = false := by
        cases h : e.matchedOut
        · rfl
        · exact absurd h hm
      rw [countStep_pending _ _ hm2, keys_mapSet] at hK
      by_cases hk : e.letterId ∈ (l.foldl countStep []).map (·.1)
      · rw [if_pos hk] at hK
        rcases ih K hK with ⟨e2, he2, h2⟩
        exact ⟨e2, List.mem_append_left _ he2, h2⟩
      · rw [if_neg hk] at hK
        rcases List.mem_append.1 hK with hK | hK
        · rcases ih K hK with ⟨e2, he2, h2⟩
          exact ⟨e2, List.mem_append_left _ he2, h2⟩
        · have : K = e.letterId := by simpa using hK
          exact ⟨e, List.mem_append_right _ (List.mem_singleton.2 rfl),
            hm2, this.symm⟩

/-- In a map with distinct keys, membership determines lookup. -/
theorem mapGet_of_mem_nodup {α : Type} :
    ∀ (m : List (ℕ × α)), (m.map (·.1)).Nodup → ∀ (K : ℕ) (c : α),
      (K, c) ∈ m → mapGet m K = some c
  | [], _, K, c => by simp
  | p :: ps, hnd, K, c => by
    intro hmem
    rw [List.map_cons, List.nodup_cons] at hnd
    rcases List.mem_cons.1 hmem with hp | hp
    · subst hp
      unfold mapGet
      rw [List.find?_cons_of_pos]
      · rfl
      · simp
    · have hne : p.1 ≠ K := by
        intro he
        exact hnd.1 (he ▸ List.mem_map.2 ⟨(K, c), hp, he ▸ rfl⟩)
      unfold mapGet
      rw [List.find?_cons_of_neg]
      · exact mapGet_of_mem_nodup ps hnd.2 K c hp
      · simp [hne]

/-- A pair of the counts map carries the pending count of its key. -/
theorem pairCounts_mem_val (l : List TrayEntry) (K : ℕ) (c : ℕ)
    (hmem : (K, c) ∈ pairCounts l) : c = pendingCount l K := by
  have hget := mapGet_of_mem_nodup (pairCounts l) (pairCounts_keys_nodup l)
    K c hmem
  rw [show pairCounts l = l.foldl countStep [] from rfl, pairCounts_get K l]
    at hget
  by_cases h0 : pendingCount l K = 0
  · rw [if_pos h0] at hget
    simp at hget
  · rw [if_neg h0] at hget
    exact (Option.some.injEq _ _ ▸ hget).symm

/-- Folding the counter over a split map keeps the first part's keys in
place and only appends new keys at the far end. -/
theorem counts_fold_split :
    ∀ (l : List TrayEntry) (m1 m2 : List (ℕ × ℕ)),
      ∃ m1' m2' : List (ℕ × ℕ),
        l.foldl countStep (m1 ++ m2) = m1' ++ m2' ∧
        m1'.map (·.1) = m1.map (·.1) ∧
        ∃ ext, m2'.map (·.1) = m2.map (·.1) ++ ext
  | [], m1, m2 => ⟨m1, m2, rfl, rfl, [], by simp⟩
  | e :: l, m1, m2 => by
    rw [List.foldl_cons]
    by_cases hm : e.matchedOut = true
    · rw [countStep_matched _ _ hm]
      exact counts_fold_split l m1 m2
    · have hm2 : e.matchedOut = false := by
        cases h : e.matchedOut
        · rfl
        · exact absurd h hm
      rw [countStep_pending _ _ hm2]
      by_cases hk : (m1 ++ m2).any (fun p => p.1 == e.letterId) = true
      · have hset : mapSet (m1 ++ m2) e.letterId
            ((mapGet (m1 ++ m2) e.letterId).getD 0 + 1) =
            m1.map (fun p => if p.1 == e.letterId then
              (e.letterId, (mapGet (m1 ++ m2) e.letterId).getD 0 + 1) else p) ++
            m2.map (fun p => if p.1 == e.letterId then
              (e.letterId, (mapGet (m1 ++ m2) e.letterId).getD 0 + 1) else p) := by
          unfold mapSet
          rw [if_pos hk, List.map_append]
        rw [hset]
        obtain ⟨m1', m2', heq, h1, ext, h2⟩ := counts_fold_split l
          (m1.map (fun p => if p.1 == e.letterId then
            (e.letterId, (mapGet (m1 ++ m2) e.letterId).getD 0 + 1) else p))
          (m2.map (fun p => if p.1 == e.letterId then
            (e.letterId, (mapGet (m1 ++ m2) e.letterId).getD 0 + 1) else p))
        refine ⟨m1', m2', heq, ?_, ext, ?_⟩
        · rw [h1, keys_map_update]
        · rw [h2, keys_map_update]
      · have hset : mapSet (m1 ++ m2) e.letterId
            ((mapGet (m1 ++ m2) e.letterId).getD 0 + 1) =
            m1 ++ (m2 ++ [(e.letterId,
              (mapGet (m1 ++ m2) e.letterId).getD 0 + 1)]) := by
          unfold mapSet
          rw [if_neg hk, List.append_assoc]
        rw [hset]
        obtain ⟨m1', m2', heq, h1, ext, h2⟩ := counts_fold_split l m1
          (m2 ++ [(e.letterId, (mapGet (m1 ++ m2) e.letterId).getD 0 + 1)])
        refine ⟨m1', m2', heq, h1, e.letterId :: ext, ?_⟩
        rw [h2]
        simp

/-- The pending count of the pair letter across the split tray is at
least 2. -/
theorem pendingCount_split_ge_two (t1 t2 t3 : List TrayEntry)
    (ei ej : TrayEntry) (L : ℕ)
    (hiM : ei.matchedOut = false) (hiL : ei.letterId = L)
    (hjM : ej.matchedOut = false) (hjL : ej.letterId = L) :
    2 ≤ pendingCount (t1 ++ ei :: t2 ++ ej :: t3) L := by
  unfold pendingCount
  simp only [List.filter_append, List.filter_cons, hiM, hiL, hjM, hjL,
    Bool.not_false, beq_self_eq_true, Bool.and_self, if_true,
    List.length_append, List.length_cons]
  omega

/-- The counting pass followed by the first-hit search finds exactly the
first letter (in tray order) whose pending count reaches 2. -/
theorem pairCounts_find_first_dup (t1 t2 t3 : List TrayEntry)
    (ei ej : TrayEntry) (L : ℕ)
    (hiM : ei.matchedOut = false) (hiL : ei.letterId = L)
    (hjM : ej.matchedOut = false) (hjL : ej.letterId = L)
    (hfirst : ∀ e ∈ t1, ¬(e.matchedOut = false ∧ e.letterId = L))
    (hfirstdup : ∀ e ∈ t1, e.matchedOut = false →
      pendingCount (t1 ++ ei :: t2 ++ ej :: t3) e.letterId < 2) :
    (pairCounts (t1 ++ ei :: t2 ++ ej :: t3)).find?
        (fun p => decide (2 ≤ p.2)) =
      some (L, pendingCount (t1 ++ ei :: t2 ++ ej :: t3) L) := by
  have h1 : pairCounts (t1 ++ ei :: t2 ++ ej :: t3) =
      (t2 ++ ej :: t3).foldl countStep
        (countStep (t1.foldl countStep []) ei) := by
    show (t1 ++ ei :: t2 ++ ej :: t3).foldl countStep [] = _
    simp [List.foldl_append, List.foldl_cons]
  have hLnot : L ∉ (t1.foldl countStep []).map (·.1) := by
    intro hmem
    rcases pairCounts_keys_pending t1 L hmem with ⟨e, he, hp⟩
    exact hfirst e he hp
  have hstep : countStep (t1.foldl countStep []) ei =
      t1.foldl countStep [] ++ [(L, 1)] := by
    rw [countStep_pending _ _ hiM]
    have hnone : mapGet (t1.foldl countStep []) ei.letterId = none := by
      rw [mapGet_eq_none_iff, hiL]
      exact hLnot
    rw [hnone]
    unfold mapSet
    rw [if_neg (fun ha => hLnot (hiL ▸ (any_key_iff _ _).1 ha)), hiL]
    rfl
  obtain ⟨A, B, heq, hAkeys, ext, hBkeys⟩ :=
    counts_fold_split (t2 ++ ej :: t3) (t1.foldl countStep []) [(L, 1)]
  have hfull : pairCounts (t1 ++ ei :: t2 ++ ej :: t3) = A ++ B := by
    rw [h1, hstep, heq]
  obtain ⟨b0, B2, hB⟩ : ∃ b0 B2, B = b0 :: B2 := by
    cases hBc : B with
    | nil =>
      rw [hBc] at hBkeys
      simp at hBkeys
    | cons b0 B2 => exact ⟨b0, B2, rfl⟩
  have hb0key : b0.1 = L := by
    rw [hB, List.map_cons] at hBkeys
    simpa using congrArg (fun l => l.headD 0) hBkeys
  have hmemb : b0 ∈ pairCounts (t1 ++ ei :: t2 ++ ej :: t3) := by
    rw [hfull, hB]
    exact List.mem_append_right _ (List.mem_cons_self b0 B2)
  have hval : b0.2 = pendingCount (t1 ++ ei :: t2 ++ ej :: t3) L := by
    have := pairCounts_mem_val (t1 ++ ei :: t2 ++ ej :: t3) b0.1 b0.2
      (by simpa using hmemb)
    rw [hb0key] at this
    exact this
  have hpc2 : 2 ≤ pendingCount (t1 ++ ei :: t2 ++ ej :: t3) L :=
    pendingCount_split_ge_two t1 t2 t3 ei ej L hiM hiL hjM hjL
  have hA : ∀ p ∈ A, ¬((fun p => decide (2 ≤ p.2)) p = true) := by
    intro p hp
    have hpmem : p ∈ pairCounts (t1 ++ ei :: t2 ++ ej :: t3) := by
      rw [hfull]
      exact List.mem_append_left _ hp
    have hpval : p.2 = pendingCount (t1 ++ ei :: t2 ++ ej :: t3) p.1 :=
      pairCounts_mem_val _ p.1 p.2 (by simpa using hpmem)
    have hkey : p.1 ∈ (t1.foldl countStep []).map (·.1) := by
      rw [← hAkeys]
      exact List.mem_map.2 ⟨p, hp, rfl⟩
    rcases pairCounts_keys_pending t1 p.1 hkey with ⟨e, he, heM, heL⟩
    have hlt := hfirstdup e he heM
    rw [heL] at hlt
    simp only [decide_eq_true_eq]
    omega
  rw [hfull, hB, List.find?_append]
  have hAn : A.find? (fun p => decide (2 ≤ p.2)) = none :=
    List.find?_eq_none.2 hA
  rw [hAn]
  rw [List.find?_cons_of_pos]
  · have hb0 : b0 = (L, pendingCount (t1 ++ ei :: t2 ++ ej :: t3) L) :=
      Prod.ext hb0key hval
    rw [hb0]
    rfl
  · simp only [decide_eq_true_eq, hval]
    exact hpc2

/-- Distinctness facts extracted from a no-duplicate four-way split. -/
theorem nodup_four_parts {α : Type} [DecidableEq α] (A1 A2 A3 : List α)
    (a b : α) (h : (A1 ++ a :: A2 ++ b :: A3).Nodup) :
    a ≠ b ∧ (∀ x ∈ A1, x ≠ a ∧ x ≠ b) ∧ (∀ x ∈ A2, x ≠ a ∧ x ≠ b) ∧
      (∀ x ∈ A3, x ≠ a ∧ x ≠ b) := by
  rw [List.nodup_iff_count_le_one] at h
  have hcount : ∀ y, (A1 ++ a :: A2 ++ b :: A3).count y =
      A1.count y + A2.count y + A3.count y +
        (if a = y then 1 else 0) + (if b = y then 1 else 0) := by
    intro y
    simp [List.count_append, List.count_cons]
    omega
  refine ⟨?_, ?_, ?_, ?_⟩
  · intro hab
    have := h a
    rw [hcount a] at this
    simp [hab] at this
  · intro x hx
    have hpos : 0 < A1.count x := List.count_pos_iff_mem.2 hx
    have := h x
    rw [hcount x] at this
    constructor
    · intro he
      rw [← he] at this
      simp at this
      omega
    · intro he
      rw [← he] at this
      simp at this
      omega
  · intro x hx
    have hpos : 0 < A2.count x := List.count_pos_iff_mem.2 hx
    have := h x
    rw [hcount x] at this
    constructor
    · intro he
      rw [← he] at this
      simp at this
      omega
    · intro he
      rw [← he] at this
      simp at this
      omega
  · intro x hx
    have hpos : 0 < A3.count x := List.count_pos_iff_mem.2 hx
    have := h x
    rw [hcount x] at this
    constructor
    · intro he
      rw [← he] at this
      simp at this
      omega
    · intro he
      rw [← he] at this
      simp at this
      omega

/-- On the split tray, the id-collecting loop returns precisely the trayIds
of the two pending pair members. -/
theorem firstTwoIds_split (t1 t2 t3 : List TrayEntry) (ei ej : TrayEntry)
    (L : ℕ)
    (hiM : ei.matchedOut = false) (hiL : ei.letterId = L)
    (hjM : ej.matchedOut = false) (hjL : ej.letterId = L)
    (hfirst : ∀ e ∈ t1, ¬(e.matchedOut = false ∧ e.letterId = L))
    (hsecond : ∀ e ∈ t2, ¬(e.matchedOut = false ∧ e.letterId = L)) :
    firstTwoIds (t1 ++ ei :: t2 ++ ej :: t3) L = [ei.trayId, ej.trayId] := by
  unfold firstTwoIds
  have hf1 : t1.filter (fun it => it.letterId == L && !it.matchedOut) = [] := by
    rw [List.filter_eq_nil]
    intro e he hp
    simp only [Bool.and_eq_true, beq_iff_eq, Bool.not_eq_true'] at hp
    exact hfirst e he ⟨hp.2, hp.1⟩
  have hf2 : t2.filter (fun it => it.letterId == L && !it.matchedOut) = [] := by
    rw [List.filter_eq_nil]
    intro e he hp
    simp only [Bool.and_eq_true, beq_iff_eq, Bool.not_eq_true'] at hp
    exact hsecond e he ⟨hp.2, hp.1⟩
  have hpi : (ei.letterId == L && !ei.matchedOut) = true := by
    simp [hiL, hiM]
  have hpj : (ej.letterId == L && !ej.matchedOut) = true := by
    simp [hjL, hjM]
  rw [List.filter_append, List.filter_append, hf1]
  simp [List.filter_cons, hpi, hpj, hf2]

/-- Marking by trayId membership rewrites the split tray pointwise when the
trayIds are distinct. -/
theorem markMap_split (now : ℚ) (t1 t2 t3 : List TrayEntry)
    (ei ej : TrayEntry)
    (hnodup : ((t1 ++ ei :: t2 ++ ej :: t3).map TrayEntry.trayId).Nodup) :
    ((t1 ++ ei :: t2 ++ ej :: t3).map (fun it =>
        if it.trayId ∈ [ei.trayId, ej.trayId] then markEntry now it else it)) =
      t1 ++ markEntry now ei :: t2 ++ markEntry now ej :: t3 := by
  have hnd : ((t1.map TrayEntry.trayId) ++ ei.trayId ::
      (t2.map TrayEntry.trayId) ++ ej.trayId ::
      (t3.map TrayEntry.trayId)).Nodup := by
    simpa using hnodup
  obtain ⟨hab, h1, h2, h3⟩ := nodup_four_parts _ _ _ _ _ hnd
  have hmark : ∀ (l : List TrayEntry),
      (∀ x ∈ l.map TrayEntry.trayId, x ≠ ei.trayId ∧ x ≠ ej.trayId) →
      l.map (fun it =>
        if it.trayId ∈ [ei.trayId, ej.trayId] then markEntry now it else it) =
        l := by
    intro l hl
    have hcg : l.map (fun it =>
        if it.trayId ∈ [ei.trayId, ej.trayId] then markEntry now it else it) =
        l.map id := by
      apply List.map_congr_left
      intro e he
      have hne := hl e.trayId (List.mem_map.2 ⟨e, he, rfl⟩)
      simp [hne.1, hne.2]
    rw [hcg, List.map_id]
  have hei : (if ei.trayId ∈ [ei.trayId, ej.trayId] then markEntry now ei
      else ei) = markEntry now ei := by simp
  have hej : (if ej.trayId ∈ [ei.trayId, ej.trayId] then markEntry now ej
      else ej) = markEntry now ej := by simp
  rw [List.map_append, List.map_cons, List.map_append, List.map_cons,
    hmark t1 h1, hmark t2 h2, hmark t3 h3, hei, hej]

/-- Full characterisation of one `tryRemovePairInTray` call on a tray whose
first two pending entries of the first duplicated letter are `ei` and `ej`:
exactly those two are marked, everything else is returned unchanged. -/
theorem tryRemovePair_spec (now : ℚ) (t1 t2 t3 : List TrayEntry)
    (ei ej : TrayEntry) (L : ℕ)
    (hnodup : ((t1 ++ ei :: t2 ++ ej :: t3).map TrayEntry.trayId).Nodup)
    (hiM : ei.matchedOut = false) (hiL : ei.letterId = L)
    (hjM : ej.matchedOut = false) (hjL : ej.letterId = L)
    (hfirst : ∀ e ∈ t1, ¬(e.matchedOut = false ∧ e.letterId = L))
    (hsecond : ∀ e ∈ t2, ¬(e.matchedOut = false ∧ e.letterId = L))
    (hfirstdup : ∀ e ∈ t1, e.matchedOut = false →
      pendingCount (t1 ++ ei :: t2 ++ ej :: t3) e.letterId < 2) :
    tryRemovePairInTray now (t1 ++ ei :: t2 ++ ej :: t3) =
      t1 ++ markEntry now ei :: t2 ++ markEntry now ej :: t3 := by
  unfold tryRemovePairInTray
  dsimp only
  rw [pairCounts_find_first_dup t1 t2 t3 ei ej L hiM hiL hjM hjL hfirst
    hfirstdup]
  dsimp only
  rw [firstTwoIds_split t1 t2 t3 ei ej L hiM hiL hjM hjL hfirst hsecond]
  rw [if_neg (by simp)]
  exact markMap_split now t1 t2 t3 ei ej hnodup

/-! ### Helper lemmas: the tray invariant -/

theorem pendingCount_eq_count (tray : List TrayEntry) (K : ℕ) :
    pendingCount tray K = (pendingLetters tray).count K := by
  unfold pendingCount pendingLetters
  rw [List.count_eq_countP, List.countP_map, List.countP_filter,
    ← List.countP_eq_length_filter]
  apply List.countP_congr
  intro e _
  simp [Bool.and_comm]

theorem nodup_pendingCount_le_one (tray : List TrayEntry)
    (h : (pendingLetters tray).Nodup) (K : ℕ) : pendingCount tray K ≤ 1 := by
  rw [pendingCount_eq_count]
  exact List.nodup_iff_count_le_one.1 h K

/-- When no letter is duplicated among pending entries, the resolution call
is the identity. -/
theorem tryRemovePair_no_dup (now : ℚ) (tray : List TrayEntry)
    (h : ∀ K, pendingCount tray K ≤ 1) :
    tryRemovePairInTray now tray = tray := by
  unfold tryRemovePairInTray
  dsimp only
  have hnone : (pairCounts tray).find? (fun p => decide (2 ≤ p.2)) = none := by
    rw [List.find?_eq_none]
    intro p hp
    have hval := pairCounts_mem_val tray p.1 p.2 (by simpa using hp)
    have hle := h p.1
    simp only [decide_eq_true_eq]
    omega
  rw [hnone]

theorem pendingLetters_append (l1 l2 : List TrayEntry) :
    pendingLetters (l1 ++ l2) = pendingLetters l1 ++ pendingLetters l2 := by
  unfold pendingLetters
  rw [List.filter_append, List.map_append]

theorem pendingLetters_cons_pending (e : TrayEntry) (l : List TrayEntry)
    (h : e.matchedOut = false) :
    pendingLetters (e :: l) = e.letterId :: pendingLetters l := by
  unfold pendingLetters
  rw [List.filter_cons_of_pos (by simp [h])]
  rfl

theorem pendingLetters_cons_matched (e : TrayEntry) (l : List TrayEntry)
    (h : e.matchedOut = true) :
    pendingLetters (e :: l) = pendingLetters l := by
  unfold pendingLetters
  rw [List.filter_cons_of_neg (by simp [h])]

/-- Inserting a fresh entry and resolving keeps the tray invariant. -/
theorem trayInv_insert_resolve (now : ℚ) (tray : List TrayEntry)
    (e : TrayEntry)
    (hpend : (pendingLetters tray).Nodup)
    (hids : ((tray ++ [e]).map TrayEntry.trayId).Nodup)
    (heM : e.matchedOut = false) :
    trayInv (tryRemovePairInTray now (tray ++ [e])) := by
  by_cases hmem : e.letterId ∈ pendingLetters tray
  · -- the new letter pairs with the unique pending occurrence
    obtain ⟨e0, he0mem, he0M, he0L⟩ :
        ∃ e0 ∈ tray, e0.matchedOut = false ∧ e0.letterId = e.letterId := by
      unfold pendingLetters at hmem
      rcases List.mem_map.1 hmem with ⟨e0, h0, hL⟩
      rcases List.mem_filter.1 h0 with ⟨h0m, h0p⟩
      exact ⟨e0, h0m, by simpa using h0p, hL⟩
    obtain ⟨t1, t2, hsplit⟩ := List.append_of_mem he0mem
    subst hsplit
    have hshape : (t1 ++ e0 :: t2) ++ [e] = t1 ++ e0 :: t2 ++ e :: [] := rfl
    rw [hshape]
    have hpl : pendingLetters (t1 ++ e0 :: t2) =
        pendingLetters t1 ++ e0.letterId :: pendingLetters t2 := by
      rw [pendingLetters_append, pendingLetters_cons_pending _ _ he0M]
    have hnotin : ∀ x ∈ t1 ++ t2, x.matchedOut = false →
        x.letterId ≠ e.letterId := by
      intro x hx hxM hxL
      have hcount := nodup_pendingCount_le_one _ hpend e.letterId
      have h2 : 2 ≤ pendingCount (t1 ++ e0 :: t2) e.letterId := by
        rcases List.mem_append.1 hx with hx | hx
        · obtain ⟨u1, u2, hu⟩ := List.append_of_mem hx
          subst hu
          have : (u1 ++ x :: u2) ++ e0 :: t2 =
              u1 ++ x :: u2 ++ e0 :: t2 := rfl
          rw [this]
          exact pendingCount_split_ge_two u1 u2 t2 x e0 e.letterId hxM hxL
            he0M he0L
        · obtain ⟨u1, u2, hu⟩ := List.append_of_mem hx
          subst hu
          have hform : t1 ++ e0 :: (u1 ++ x :: u2) =
              t1 ++ e0 :: u1 ++ x :: u2 := by simp
          rw [hform]
          exact pendingCount_split_ge_two t1 u1 u2 e0 x e.letterId he0M he0L
            hxM hxL
      omega
    have hres := tryRemovePair_spec now t1 t2 [] e0 e e.letterId
      (by simpa using hids) he0M he0L heM rfl
      (fun x hx hp => hnotin x (List.mem_append_left _ hx) hp.1 hp.2)
      (fun x hx hp => hnotin x (List.mem_append_right _ hx) hp.1 hp.2)
      (fun x hx hxM => by
        by_cases hxL : x.letterId = e.letterId
        · exact absurd hxL (hnotin x (List.mem_append_left _ hx) hxM)
        · have : pendingCount (t1 ++ e0 :: t2 ++ e :: []) x.letterId =
              pendingCount ((t1 ++ e0 :: t2) ++ [e]) x.letterId := rfl
          rw [this, pendingCount_append]
          have hle := nodup_pendingCount_le_one _ hpend x.letterId
          have : ¬(e.matchedOut = false ∧ e.letterId = x.letterId) := by
            rintro ⟨_, hL⟩
            exact hxL hL.symm
          rw [if_neg this]
          omega)
    rw [hres]
    constructor
    · have hplres : pendingLetters
          (t1 ++ markEntry now e0 :: t2 ++ markEntry now e :: []) =
          pendingLetters t1 ++ pendingLetters t2 := by
        have h1 : (markEntry now e0).matchedOut = true := rfl
        have h2 : (markEntry now e).matchedOut = true := rfl
        rw [show t1 ++ markEntry now e0 :: t2 ++ markEntry now e :: [] =
          (t1 ++ markEntry now e0 :: t2) ++ [markEntry now e] from rfl]
        rw [pendingLetters_append, pendingLetters_append,
          pendingLetters_cons_matched _ _ h1,
          pendingLetters_cons_matched _ _ h2]
        simp [pendingLetters]
      rw [hplres]
      have hsub : (pendingLetters t1 ++ pendingLetters t2).Sublist
          (pendingLetters t1 ++ e0.letterId :: pendingLetters t2) :=
        List.Sublist.append_left (List.sublist_cons_self _ _) _
      exact (hpl ▸ hpend).sublist hsub
    · have hidsres : (t1 ++ markEntry now e0 :: t2 ++ markEntry now e ::
          []).map TrayEntry.trayId =
          ((t1 ++ e0 :: t2) ++ [e]).map TrayEntry.trayId := by
        simp [markEntry]
      rw [hidsres]
      exact hids
  · -- the new letter is fresh: nothing resolves
    have hcount : ∀ K, pendingCount (tray ++ [e]) K ≤ 1 := by
      intro K
      rw [pendingCount_append]
      have hle := nodup_pendingCount_le_one _ hpend K
      by_cases hK : e.letterId = K
      · have hzero : pendingCount tray K = 0 := by
          rw [pendingCount_eq_count, List.count_eq_zero]
          rw [← hK]
          exact hmem
        rw [hzero, if_pos ⟨heM, hK⟩]
      · rw [if_neg (fun hc => hK hc.2)]
        omega
    rw [tryRemovePair_no_dup now _ hcount]
    constructor
    · rw [pendingLetters_append, pendingLetters_cons_pending _ _ heM]
      have : pendingLetters ([] : List TrayEntry) = [] := rfl
      rw [this]
      rw [List.nodup_append]
      refine ⟨hpend, by simp, ?_⟩
      intro x hx
      simp only [List.mem_cons, List.not_mem_nil, or_false]
      intro hxe
      subst hxe
      exact hmem hx
    · exact hids

/-! ### Claim theorems -/

/-- **C1.** In the playing state, activating a free, uncovered tile while the
tray already holds `TRAY_LIMIT = 4` entries transitions the game to `lose`
and rejects the insertion: the tray is unchanged. -/
theorem pickTile_fullTray_loses (cfg : Cfg) (now : ℚ) (fid tid : ℕ)
    (g : Game) (t : Tile)
    (hplay : g.gameState = "playing")
    (hfind : g.tiles.find? (fun x => x.tileId == tid) = some t)
    (hrem : t.removed = false) (hanim : t.animatingOut = false)
    (hfree : tid ∈ (computeTileStatus (aliveTiles g.tiles)
      cfg.tileW cfg.tileH cfg.zOffsetX cfg.zOffsetY cfg.sideGapFactor).1)
    (hcov : t.covered = false)
    (hfull : g.tray.length = TRAY_LIMIT) :
    (pickTile cfg now fid tid g).gameState = "lose" ∧
    (pickTile cfg now fid tid g).tray = g.tray := by
  unfold pickTile
  rw [hfind]
  simp [hplay, hrem, hanim, hfree, hcov, hfull, TRAY_LIMIT]

/-- Witness for C1 at a concrete full-tray game. -/
theorem pickTile_fullTray_loses_witness :
    (pickTile defaultCfg 1000 99 0 fullTrayGame).gameState = "lose" ∧
    (pickTile defaultCfg 1000 99 0 fullTrayGame).tray = fullTrayGame.tray :=
  pickTile_fullTray_loses defaultCfg 1000 99 0 fullTrayGame soloTile
    rfl (by decide) rfl rfl (by decide) rfl rfl

/-- **C7.** On the transition to win at level `L` with elapsed seconds `T`
and `M` moves, the merits earned equal `round(base · (1 + 0.1·(L−1)))` with
`base` given by the tier table `<0.40→2, [0.40,0.55)→4, [0.55,0.70)→6,
[0.70,0.85)→8, ≥0.85→10` applied to the score
`0.35·clamp(1−(T/(90+15(L−1))−1)·0.5, 0, 1) +
0.65·clamp(1−(M/(20+3(L−1))−1)·0.5, 0, 1)`, and that amount is added to the
cumulative total. -/
theorem winEffect_matches_claim (level elapsedSec moveCount : ℕ)
    (totalMerits : ℤ) :
    winEffect level elapsedSec moveCount totalMerits =
      (claimMerits level elapsedSec moveCount,
       totalMerits + claimMerits level elapsedSec moveCount) := by
  unfold winEffect claimMerits
  dsimp only
  have harg1 :
      (1 - ((elapsedSec : ℚ) / (90 + ((level : ℚ) - 1) * 15) - 1) * (1/2)) =
      (1 - ((elapsedSec : ℚ) / (90 + 15 * ((level : ℚ) - 1)) - 1) * (1/2)) := by
    ring_nf
  have harg2 :
      (1 - ((moveCount : ℚ) / (20 + ((level : ℚ) - 1) * 3) - 1) * (1/2)) =
      (1 - ((moveCount : ℚ) / (20 + 3 * ((level : ℚ) - 1)) - 1) * (1/2)) := by
    ring_nf
  rw [harg1, harg2]
  set s1 := clamp (1 - ((elapsedSec : ℚ) / (90 + 15 * ((level : ℚ) - 1)) - 1) * (1/2)) 0 1 with hs1
  set s2 := clamp (1 - ((moveCount : ℚ) / (20 + 3 * ((level : ℚ) - 1)) - 1) * (1/2)) 0 1 with hs2
  have hscore : s1 * (35/100) + s2 * (65/100) = (35/100) * s1 + (65/100) * s2 := by
    ring
  rw [hscore]
  set s := (35/100) * s1 + (65/100) * s2 with hs
  have hmult : (1 : ℚ) + ((level : ℚ) - 1) * (1/10) = 1 + (1/10) * ((level : ℚ) - 1) := by
    ring
  rw [hmult]
  split_ifs with h1 h2 h3 h4 h5 h6 h7 h8 h9 <;>
    first
      | rfl
      | (exfalso; linarith)

/-- **C9 counterexample.** `lostGame` is in the terminal state `lose`, yet
`undo()` (with its nonempty history) returns it to `playing`: the claim that
no operation but a session reset leaves a terminal state is false for undo. -/
theorem undo_escapes_lose :
    lostGame.gameState = "lose" ∧ (undo lostGame).gameState = "playing" :=
  ⟨rfl, rfl⟩

/-- **C9 (amended).** Tile activation and reshuffle are no-ops in the
terminal states `win` and `lose`, the scheduled timer callbacks never change
a terminal state, and `undo` keeps a terminal state whenever history is
empty — but `undo` with a snapshot available restores that snapshot's state
(see `undo_escapes_lose`). -/
theorem terminal_stable_except_undo (cfg : Cfg) (now : ℚ) (fid tid : ℕ)
    (rand : ℕ → ℕ) (ids : List ℕ) (g : Game)
    (hterm : g.gameState = "win" ∨ g.gameState = "lose") :
    pickTile cfg now fid tid g = g ∧
    reshuffle rand g = g ∧
    (trayMatchFire ids g).gameState = g.gameState ∧
    (boardRemoveFire tid g).gameState = g.gameState ∧
    (g.history = [] → undo g = g) := by
  have hne : g.gameState ≠ "playing" := by
    rcases hterm with h | h <;> rw [h] <;> decide
  refine ⟨?_, ?_, rfl, rfl, ?_⟩
  · unfold pickTile
    simp [hne]
  · unfold reshuffle
    simp [hne]
  · intro hh
    unfold undo
    simp [hh]

/-- Witness for C9 (amended) at a concrete won game with empty history. -/
theorem terminal_stable_except_undo_witness :
    pickTile defaultCfg 0 7 0
        { gameState := "win", tiles := [], tray := [], history := [],
          moveCount := 9 } =
      { gameState := "win", tiles := [], tray := [], history := [],
        moveCount := 9 } ∧
    reshuffle (fun _ => 0)
        { gameState := "win", tiles := [], tray := [], history := [],
          moveCount := 9 } =
      { gameState := "win", tiles := [], tray := [], history := [],
        moveCount := 9 } ∧
    (trayMatchFire [3]
        { gameState := "win", tiles := [], tray := [], history := [],
          moveCount := 9 }).gameState =
      (Game.gameState
        { gameState := "win", tiles := [], tray := [], history := [],
          moveCount := 9 }) ∧
    (boardRemoveFire 0
        { gameState := "win", tiles := [], tray := [], history := [],
          moveCount := 9 }).gameState =
      (Game.gameState
        { gameState := "win", tiles := [], tray := [], history := [],
          moveCount := 9 }) ∧
    ((Game.history
        { gameState := "win", tiles := [], tray := [], history := [],
          moveCount := 9 }) = [] →
      undo
          { gameState := "win", tiles := [], tray := [], history := [],
            moveCount := 9 } =
        { gameState := "win", tiles := [], tray := [], history := [],
          moveCount := 9 }) :=
  terminal_stable_except_undo defaultCfg 0 7 0 (fun _ => 0) [3] _ (Or.inl rfl)

/-- **C5.** `reshuffle` is a no-op unless the state is playing; when it runs,
the multiset of letters over the non-removed tiles is preserved (a
permutation of the old assignment) and every tile keeps its id, position,
layer and `covered`/`removed`/`animatingOut` flags — only `letterId` values
move between live tiles. -/
theorem reshuffle_permutes_letters (rand : ℕ → ℕ) (g : Game) :
    (g.gameState ≠ "playing" → reshuffle rand g = g) ∧
    (g.gameState = "playing" →
      ((((reshuffle rand g).tiles.filter (fun t => !t.removed)).map
          (·.letterId)).Perm
        ((g.tiles.filter (fun t => !t.removed)).map (·.letterId)) ∧
      (reshuffle rand g).tiles.map tileShape = g.tiles.map tileShape)) := by
  constructor
  · intro hne
    unfold reshuffle
    simp [hne]
  · intro hplay
    have hrun : reshuffle rand g =
        { pushHistory g with
            tiles := reassign
              (shuffle rand ((g.tiles.filter (fun t => !t.removed)).map
                (·.letterId)))
              g.tiles } := by
      unfold reshuffle
      simp [hplay]
    rw [hrun]
    constructor
    · have hlen :
          (shuffle rand ((g.tiles.filter (fun t => !t.removed)).map
            (·.letterId))).length =
          (g.tiles.filter (fun t => !t.removed)).length := by
        rw [(shuffle_perm rand _).length_eq, List.length_map]
      rw [reassign_letters g.tiles _ hlen]
      exact (shuffle_perm rand _).trans (List.Perm.refl _)
    · exact reassign_shape g.tiles _

/-- Witness for C5: both conjuncts instantiated at concrete games. -/
theorem reshuffle_permutes_letters_witness :
    reshuffle (fun _ => 0)
        { gameState := "lose", tiles := [soloTile], tray := [], history := [],
          moveCount := 0 } =
      { gameState := "lose", tiles := [soloTile], tray := [], history := [],
        moveCount := 0 } ∧
    ((((reshuffle (fun _ => 0) roomyGame).tiles.filter
          (fun t => !t.removed)).map (·.letterId)).Perm
        ((roomyGame.tiles.filter (fun t => !t.removed)).map (·.letterId)) ∧
      (reshuffle (fun _ => 0) roomyGame).tiles.map tileShape =
        roomyGame.tiles.map tileShape) :=
  ⟨(reshuffle_permutes_letters (fun _ => 0) _).1 (by decide),
   (reshuffle_permutes_letters (fun _ => 0) roomyGame).2 rfl⟩

/-- **C6.** A tile activation that results in a tray insertion pushes a
snapshot of the pre-mutation board, tray and state onto history before
mutating; a subsequent `undo()` — even after the two scheduled callbacks
have fired — restores tray, board and state to their exact pre-activation
values; and `undo()` with empty history changes nothing, so repeated undo
past the oldest snapshot is a no-op. -/
theorem pickTile_history_undo (cfg : Cfg) (now : ℚ) (fid tid : ℕ)
    (g : Game) (t : Tile)
    (hplay : g.gameState = "playing")
    (hfind : g.tiles.find? (fun x => x.tileId == tid) = some t)
    (hrem : t.removed = false) (hanim : t.animatingOut = false)
    (hfree : tid ∈ (computeTileStatus (aliveTiles g.tiles)
      cfg.tileW cfg.tileH cfg.zOffsetX cfg.zOffsetY cfg.sideGapFactor).1)
    (hcov : t.covered = false)
    (hroom : g.tray.length < TRAY_LIMIT) :
    (pickTile cfg now fid tid g).history =
      g.history ++ [⟨g.tiles, g.tray, g.gameState⟩] ∧
    undo (pickTile cfg now fid tid g) =
      { pickTile cfg now fid tid g with
          tiles := g.tiles, tray := g.tray, gameState := g.gameState,
          history := g.history } ∧
    (∀ (ids : List ℕ) (tid2 : ℕ),
      undo (trayMatchFire ids (boardRemoveFire tid2
          (pickTile cfg now fid tid g))) =
        { trayMatchFire ids (boardRemoveFire tid2
            (pickTile cfg now fid tid g)) with
            tiles := g.tiles, tray := g.tray, gameState := g.gameState,
            history := g.history }) ∧
    (∀ g0 : Game, g0.history = [] → undo g0 = g0) := by
  have hroom4 : g.tray.length < 4 := hroom
  have hnotfull : ¬ TRAY_LIMIT ≤ g.tray.length := by
    show ¬ (4 : ℕ) ≤ g.tray.length
    omega
  have hnext : ¬ TRAY_LIMIT < (g.tray ++
      [({ trayId := fid, tileId := tid, letterId := t.letterId,
          glowUntil := now + 520, matchedOut := false } : TrayEntry)]).length := by
    show ¬ (4 : ℕ) < _
    rw [List.length_append]
    simp only [List.length_cons, List.length_nil]
    omega
  have hrun : pickTile cfg now fid tid g =
      { gameState := g.gameState
        tiles := g.tiles.map (fun x =>
          if x.tileId == tid then { x with animatingOut := true } else x)
        tray := tryRemovePairInTray now (g.tray ++
          [{ trayId := fid, tileId := tid, letterId := t.letterId,
             glowUntil := now + 520, matchedOut := false }])
        history := g.history ++ [⟨g.tiles, g.tray, g.gameState⟩]
        moveCount := g.moveCount + 1 } := by
    unfold pickTile
    rw [hfind]
    simp only [TRAY_LIMIT] at hnotfull hnext ⊢
    simp [hplay, hrem, hanim, hfree, hcov, hnotfull, hnext, pushHistory]
    try omega
  have hundo : ∀ g2 : Game,
      g2.history = g.history ++ [⟨g.tiles, g.tray, g.gameState⟩] →
      undo g2 = { g2 with tiles := g.tiles, tray := g.tray,
                          gameState := g.gameState, history := g.history } := by
    intro g2 hh
    unfold undo
    rw [hh, List.getLast?_concat, List.dropLast_concat]
  refine ⟨by rw [hrun], ?_, ?_, ?_⟩
  · exact hundo _ (by rw [hrun])
  · intro ids tid2
    exact hundo _ (by rw [hrun]; rfl)
  · intro g0 h0
    unfold undo
    rw [h0]
    rfl

/-- Witness for C6 at a concrete one-move game. -/
theorem pickTile_history_undo_witness :
    (pickTile defaultCfg 1000 99 0 roomyGame).history =
      roomyGame.history ++
        [⟨roomyGame.tiles, roomyGame.tray, roomyGame.gameState⟩] ∧
    undo (pickTile defaultCfg 1000 99 0 roomyGame) =
      { pickTile defaultCfg 1000 99 0 roomyGame with
          tiles := roomyGame.tiles, tray := roomyGame.tray,
          gameState := roomyGame.gameState, history := roomyGame.history } ∧
    (∀ (ids : List ℕ) (tid2 : ℕ),
      undo (trayMatchFire ids (boardRemoveFire tid2
          (pickTile defaultCfg 1000 99 0 roomyGame))) =
        { trayMatchFire ids (boardRemoveFire tid2
            (pickTile defaultCfg 1000 99 0 roomyGame)) with
            tiles := roomyGame.tiles, tray := roomyGame.tray,
            gameState := roomyGame.gameState,
            history := roomyGame.history }) ∧
    (∀ g0 : Game, g0.history = [] → undo g0 = g0) :=
  pickTile_history_undo defaultCfg 1000 99 0 roomyGame soloTile
    rfl (by decide) rfl rfl (by decide) rfl (by decide)

/-! ### Helper lemmas: layout and session-start sizes -/

theorem createLayoutPool_length : createLayoutPool.length = 52 := rfl

theorem buildLayout_positions_length (w h : ℚ) (n : ℕ) :
    (buildLayout w h n).positionsPx.length = min n 52 := by
  unfold buildLayout
  simp [List.length_take, createLayoutPool_length]

theorem initGameTiles_length (randc : ℕ → ℕ → ℕ) (randPair randCover : ℕ → ℕ)
    (letters10 : List ℕ) (coverRate : ℚ) (layout : List PosPx) :
    (initGameTiles randc randPair randCover letters10 coverRate layout).length =
      layout.length := by
  unfold initGameTiles
  simp

/-- **C8 counterexample.** At the requested slot count 53 — both odd and
larger than the 52-slot layout pool — session start does not fail at all:
`buildLayout` silently truncates to 52 slots, and `initGame` on an odd
25-slot layout happily builds a playing session of 25 tiles.  No
`ConfigurationError` exists anywhere in the code. -/
theorem sessionStart_never_fails :
    (buildLayout 72 84 53).positionsPx.length = 52 ∧
    (initGame (fun _ _ => 0) (fun _ => 0) (fun _ => 0)
        [0, 1, 2, 3, 4, 5, 6, 7, 8, 9] 0
        (buildLayout 72 84 25).positionsPx).gameState = "playing" ∧
    (initGame (fun _ _ => 0) (fun _ => 0) (fun _ => 0)
        [0, 1, 2, 3, 4, 5, 6, 7, 8, 9] 0
        (buildLayout 72 84 25).positionsPx).tiles.length = 25 := by
  refine ⟨buildLayout_positions_length 72 84 53, rfl, ?_⟩
  show (initGameTiles _ _ _ _ _ _).length = 25
  rw [initGameTiles_length, buildLayout_positions_length]
  decide

/-- **C8 (amended).** Session start never fails: `buildLayout` clamps the
requested slot count to the pool size via `Math.min` (silently truncating
any excess, odd counts included), and for every requested count within the
52-slot pool the created board has exactly that many tiles. -/
theorem buildLayout_truncates (w h : ℚ) (n : ℕ) (randc : ℕ → ℕ → ℕ)
    (randPair randCover : ℕ → ℕ) (letters10 : List ℕ) (coverRate : ℚ) :
    (n ≤ 52 → (buildLayout w h n).positionsPx.length = n) ∧
    (buildLayout w h n).positionsPx.length = min n 52 ∧
    (initGameTiles randc randPair randCover letters10 coverRate
        (buildLayout w h n).positionsPx).length =
      (buildLayout w h n).positionsPx.length := by
  refine ⟨?_, buildLayout_positions_length w h n,
    initGameTiles_length _ _ _ _ _ _⟩
  intro hle
  rw [buildLayout_positions_length]
  omega

/-- Witness for C8 (amended) at the level-1 count 24. -/
theorem buildLayout_truncates_witness :
    ((24 : ℕ) ≤ 52 → (buildLayout 72 84 24).positionsPx.length = 24) ∧
    (buildLayout 72 84 24).positionsPx.length = min 24 52 ∧
    (initGameTiles (fun _ _ => 0) (fun _ => 0) (fun _ => 0)
        [0, 1, 2, 3, 4, 5, 6, 7, 8, 9] 0
        (buildLayout 72 84 24).positionsPx).length =
      (buildLayout 72 84 24).positionsPx.length :=
  buildLayout_truncates 72 84 24 (fun _ _ => 0) (fun _ => 0) (fun _ => 0)
    [0, 1, 2, 3, 4, 5, 6, 7, 8, 9] 0

/-- **C2.** For every set of live tiles (with distinct ids) and positive tile
dimensions, the solver's output partitions the input: a tile assigned any
block reason — in particular `"blocked:overlap-above"` — is never a member of
the returned free set, and every live tile is either in the free set or has
an entry in the reason map. -/
theorem computeTileStatus_partitions (alive : List Tile)
    (w h ox oy sgf : ℚ) (hw : 0 < w) (hh : 0 < h)
    (hnodup : (alive.map Tile.tileId).Nodup) :
    (∀ id : ℕ, (mapGet (computeTileStatus alive w h ox oy sgf).2 id).isSome →
      id ∉ (computeTileStatus alive w h ox oy sgf).1) ∧
    (∀ t ∈ alive, t.tileId ∈ (computeTileStatus alive w h ox oy sgf).1 ∨
      (mapGet (computeTileStatus alive w h ox oy sgf).2 t.tileId).isSome) := by
  have hres : computeTileStatus alive w h ox oy sgf =
      alive.foldl
        (pass2Step (rectFor alive w h ox oy) alive
          (blockedIds (rectFor alive w h ox oy) alive) (w * sgf))
        ([], reasonsPass1 (rectFor alive w h ox oy) alive) := rfl
  constructor
  · intro id hsome hmem
    rw [hres] at hsome hmem
    rcases (pass2_free_mem (rectFor alive w h ox oy) alive _ (w * sgf)
        alive _ id).1 hmem with hnil | ⟨t, ht, hid, hnb, hfc⟩
    · exact absurd hnil (List.not_mem_nil id)
    rcases (pass2_reason_isSome (rectFor alive w h ox oy) alive _ (w * sgf)
        alive _ id).1 hsome with hr1 | ⟨t2, ht2, hid2, hnb2, hfc2⟩
    · have hblocked : id ∈ blockedIds (rectFor alive w h ox oy) alive := by
        rw [blockedIds_mem]
        exact (reasonsPass1_isSome (rectFor alive w h ox oy) alive id).1 hr1
      rw [hid] at hnb
      exact absurd hblocked hnb
    · have hteq : t = t2 :=
        List.inj_on_of_nodup_map hnodup ht ht2 (by rw [hid, hid2])
      rw [hteq, hfc2] at hfc
      exact absurd hfc (by simp)
  · intro t ht
    by_cases hbk : t.tileId ∈ blockedIds (rectFor alive w h ox oy) alive
    · right
      rw [hres, pass2_reason_isSome (rectFor alive w h ox oy) alive _ (w * sgf)
        alive _ t.tileId]
      left
      rw [reasonsPass1_isSome]
      exact (blockedIds_mem (rectFor alive w h ox oy) alive t.tileId).1 hbk
    · by_cases hfc : freeCond (rectFor alive w h ox oy) alive (w * sgf) t = true
      · left
        rw [hres, pass2_free_mem (rectFor alive w h ox oy) alive _ (w * sgf)
          alive _ t.tileId]
        exact Or.inr ⟨t, ht, rfl, hbk, hfc⟩
      · right
        rw [hres, pass2_reason_isSome (rectFor alive w h ox oy) alive _
          (w * sgf) alive _ t.tileId]
        exact Or.inr ⟨t, ht, rfl, hbk, by simpa using hfc⟩

/-- Witness for C2 on the two stacked tiles. -/
theorem computeTileStatus_partitions_witness :
    (∀ id : ℕ,
      (mapGet (computeTileStatus stackedTiles 100 100 0 0 (18/100)).2
        id).isSome →
      id ∉ (computeTileStatus stackedTiles 100 100 0 0 (18/100)).1) ∧
    (∀ t ∈ stackedTiles,
      t.tileId ∈ (computeTileStatus stackedTiles 100 100 0 0 (18/100)).1 ∨
      (mapGet (computeTileStatus stackedTiles 100 100 0 0 (18/100)).2
        t.tileId).isSome) :=
  computeTileStatus_partitions stackedTiles 100 100 0 0 (18/100)
    (by decide) (by decide) (by decide)

/-- **C3 counterexample.** In `stackedTiles`, the lower tile (id 0) has no
same-layer neighbor at all — the only other tile lives on layer 1 — yet it is
not placed in the free set: it is `"blocked:overlap-above"`.  A tile with no
same-layer overlapping neighbor is therefore not always free. -/
theorem no_same_layer_neighbor_yet_blocked :
    (∀ o ∈ stackedTiles, o.tileId ≠ 0 → o.z ≠ 0) ∧
    0 ∉ (computeTileStatus stackedTiles 100 100 0 0 (18/100)).1 ∧
    mapGet (computeTileStatus stackedTiles 100 100 0 0 (18/100)).2 0 =
      some "blocked:overlap-above" := by
  rw [stacked_eval]
  decide

/-- **C3 (amended).** A tile that is not occluded by the overlap rules — no
overlapping tile on a higher layer, and no same-layer tile with rectangle or
vertical overlap of its padded rectangle — is always placed in the free set,
regardless of the lateral rule: both of its sides are vacuously free. -/
theorem isolated_unblocked_tile_free (alive : List Tile)
    (w h ox oy sgf : ℚ)
    (hnodup : (alive.map Tile.tileId).Nodup)
    (t : Tile) (ht : t ∈ alive)
    (habove : ∀ o ∈ alive, o.tileId ≠ t.tileId → t.z < o.z →
      rectsOverlapAny (rectFor alive w h ox oy t.tileId)
        (rectFor alive w h ox oy o.tileId) = false)
    (hsame : ∀ o ∈ alive, o.tileId ≠ t.tileId → o.z = t.z →
      rectsOverlapAny (rectFor alive w h ox oy t.tileId)
        (rectFor alive w h ox oy o.tileId) = false ∧
      verticalOverlap (rectFor alive w h ox oy t.tileId)
        (rectFor alive w h ox oy o.tileId) = false) :
    t.tileId ∈ (computeTileStatus alive w h ox oy sgf).1 := by
  have hp1 : pass1Reason (rectFor alive w h ox oy) alive t = none := by
    unfold pass1Reason
    cases hf : alive.find? (fun o =>
        !(o.tileId == t.tileId) &&
        rectsOverlapAny (rectFor alive w h ox oy t.tileId)
          (rectFor alive w h ox oy o.tileId) &&
        decide (t.z ≤ o.z)) with
    | none => rfl
    | some o =>
      exfalso
      have ho : o ∈ alive := List.mem_of_find?_eq_some hf
      have hpred := List.find?_some hf
      simp only [Bool.and_eq_true, decide_eq_true_eq] at hpred
      obtain ⟨⟨hne0, hov⟩, hz⟩ := hpred
      have hne : o.tileId ≠ t.tileId := by simpa using hne0
      rcases lt_or_eq_of_le hz with hlt | heq
      · rw [habove o ho hne hlt] at hov
        exact absurd hov (by simp)
      · rw [(hsame o ho hne heq.symm).1] at hov
        exact absurd hov (by simp)
  have hnb : t.tileId ∉ blockedIds (rectFor alive w h ox oy) alive := by
    rw [blockedIds_mem]
    rintro ⟨t2, ht2, hid2, hsome2⟩
    have hteq : t2 = t := List.inj_on_of_nodup_map hnodup ht2 ht hid2
    rw [hteq, hp1] at hsome2
    exact absurd hsome2 (by simp)
  have hL : hasLeftNeighbor (rectFor alive w h ox oy) (w * sgf)
      (alive.filter (fun o => o.z == t.z)) t = false := by
    unfold hasLeftNeighbor
    rw [List.any_eq_false]
    intro o ho
    rw [List.mem_filter] at ho
    obtain ⟨ho1, hoz⟩ := ho
    by_cases hne : o.tileId = t.tileId
    · simp [hne]
    · have hv := (hsame o ho1 hne (by simpa using hoz)).2
      simp [hv]
  have hfc : freeCond (rectFor alive w h ox oy) alive (w * sgf) t = true := by
    unfold freeCond
    dsimp only
    rw [hL]
    simp
  have hres : computeTileStatus alive w h ox oy sgf =
      alive.foldl
        (pass2Step (rectFor alive w h ox oy) alive
          (blockedIds (rectFor alive w h ox oy) alive) (w * sgf))
        ([], reasonsPass1 (rectFor alive w h ox oy) alive) := rfl
  rw [hres, pass2_free_mem (rectFor alive w h ox oy) alive _ (w * sgf)
    alive _ t.tileId]
  exact Or.inr ⟨t, ht, rfl, hnb, hfc⟩

/-- Witness for C3 (amended) on two far-apart same-layer tiles. -/
theorem isolated_unblocked_tile_free_witness :
    (0 : ℕ) ∈ (computeTileStatus apartTiles 100 100 0 0 (18/100)).1 :=
  isolated_unblocked_tile_free apartTiles 100 100 0 0 (18/100) (by decide)
    ⟨0, 5, 0, 0, 0, false, false, false⟩ (by decide)
    (by decide) apart_same_free

/-- **C4.** On a tray with at least two non-`matchedOut` entries of equal
letter, one `tryRemovePairInTray` call marks exactly the first two pending
entries `ei, ej` of the first duplicated letter (in tray order) and no other
entry: the result is the same tray with only those two entries replaced by
their marked versions, so any later entry of the same letter — in `t3` —
survives the call untouched (and still pending).  Entries already
`matchedOut` never enter the occurrence counts (`pendingCount`). -/
theorem tryResolvePairs_marks_first_two (now : ℚ)
    (t1 t2 t3 : List TrayEntry) (ei ej : TrayEntry) (L : ℕ)
    (hnodup : ((t1 ++ ei :: t2 ++ ej :: t3).map TrayEntry.trayId).Nodup)
    (hiM : ei.matchedOut = false) (hiL : ei.letterId = L)
    (hjM : ej.matchedOut = false) (hjL : ej.letterId = L)
    (hfirst : ∀ e ∈ t1, ¬(e.matchedOut = false ∧ e.letterId = L))
    (hsecond : ∀ e ∈ t2, ¬(e.matchedOut = false ∧ e.letterId = L))
    (hfirstdup : ∀ e ∈ t1, e.matchedOut = false →
      pendingCount (t1 ++ ei :: t2 ++ ej :: t3) e.letterId < 2) :
    tryRemovePairInTray now (t1 ++ ei :: t2 ++ ej :: t3) =
      t1 ++ markEntry now ei :: t2 ++ markEntry now ej :: t3 ∧
    (markEntry now ei).matchedOut = true ∧
    (markEntry now ej).matchedOut = true ∧
    ∀ e ∈ t3, e ∈ tryRemovePairInTray now (t1 ++ ei :: t2 ++ ej :: t3) := by
  have heq := tryRemovePair_spec now t1 t2 t3 ei ej L hnodup hiM hiL hjM hjL
    hfirst hsecond hfirstdup
  refine ⟨heq, rfl, rfl, ?_⟩
  intro e he
  rw [heq]
  exact List.mem_append_right _ (List.mem_cons_of_mem _ he)

/-- Witness for C4: a five-entry tray with a non-duplicated pending letter in
front, an already-matched entry in between, and a third copy of the pair
letter behind. -/
theorem tryResolvePairs_marks_first_two_witness :
    tryRemovePairInTray 1000
        ([⟨1, 100, 7, 0, false⟩] ++ (⟨2, 101, 5, 0, false⟩ : TrayEntry) ::
          [⟨3, 102, 9, 0, true⟩] ++ (⟨4, 103, 5, 0, false⟩ : TrayEntry) ::
          [⟨5, 104, 5, 0, false⟩]) =
      [⟨1, 100, 7, 0, false⟩] ++
        markEntry 1000 (⟨2, 101, 5, 0, false⟩ : TrayEntry) ::
        [⟨3, 102, 9, 0, true⟩] ++
        markEntry 1000 (⟨4, 103, 5, 0, false⟩ : TrayEntry) ::
        [⟨5, 104, 5, 0, false⟩] ∧
    (markEntry 1000 (⟨2, 101, 5, 0, false⟩ : TrayEntry)).matchedOut = true ∧
    (markEntry 1000 (⟨4, 103, 5, 0, false⟩ : TrayEntry)).matchedOut = true ∧
    ∀ e ∈ [(⟨5, 104, 5, 0, false⟩ : TrayEntry)],
      e ∈ tryRemovePairInTray 1000
        ([⟨1, 100, 7, 0, false⟩] ++ (⟨2, 101, 5, 0, false⟩ : TrayEntry) ::
          [⟨3, 102, 9, 0, true⟩] ++ (⟨4, 103, 5, 0, false⟩ : TrayEntry) ::
          [⟨5, 104, 5, 0, false⟩]) :=
  tryResolvePairs_marks_first_two 1000
    [⟨1, 100, 7, 0, false⟩] [⟨3, 102, 9, 0, true⟩] [⟨5, 104, 5, 0, false⟩]
    ⟨2, 101, 5, 0, false⟩ ⟨4, 103, 5, 0, false⟩ 5
    (by decide) rfl rfl rfl rfl (by decide) (by decide) (by decide)

/-- **C10.** The implicit tray invariant — the non-`matchedOut` entries have
pairwise distinct letters (together with unique trayIds, which the generated
trayId strings provide), both for the live tray and for every undo
snapshot — is preserved by every operation that touches the tray: a tile
activation (insertion immediately followed by pair resolution), the delayed
removal of matched entries, the board-removal callback, undo restoring a
snapshot, and reshuffle. -/
theorem tray_invariant_preserved (cfg : Cfg) (now : ℚ) (fid tid : ℕ)
    (ids : List ℕ) (rand : ℕ → ℕ) (g : Game)
    (hInv : Inv g)
    (hfresh : fid ∉ g.tray.map TrayEntry.trayId) :
    Inv (pickTile cfg now fid tid g) ∧ Inv (undo g) ∧
    Inv (trayMatchFire ids g) ∧ Inv (boardRemoveFire tid g) ∧
    Inv (reshuffle rand g) := by
  have hundo : Inv (undo g) := by
    unfold undo
    cases hl : g.history.getLast? with
    | none => exact hInv
    | some last =>
      constructor
      · exact hInv.2 last (List.mem_of_mem_getLast? hl)
      · intro s hs
        exact hInv.2 s (List.dropLast_sublist g.history |>.mem hs)
  have hmatch : Inv (trayMatchFire ids g) := by
    constructor
    · have hsub : List.Sublist
          (g.tray.filter fun it => !(it.trayId ∈ ids)) g.tray :=
        List.filter_sublist g.tray
      constructor
      · exact hInv.1.1.sublist ((hsub.filter _).map _)
      · exact hInv.1.2.sublist (hsub.map _)
    · exact hInv.2
  have hboard : Inv (boardRemoveFire tid g) := hInv
  have hreshuffle : Inv (reshuffle rand g) := by
    unfold reshuffle
    by_cases h1 : g.gameState ≠ "playing"
    · rw [if_pos h1]
      exact hInv
    · rw [if_neg h1]
      refine ⟨hInv.1, ?_⟩
      intro s hs
      rcases List.mem_append.1 hs with hs | hs
      · exact hInv.2 s hs
      · have : s = ⟨g.tiles, g.tray, g.gameState⟩ := by simpa using hs
        rw [this]
        exact hInv.1
  have hpick : Inv (pickTile cfg now fid tid g) := by
    unfold pickTile
    by_cases h1 : g.gameState ≠ "playing"
    · rw [if_pos h1]
      exact hInv
    · rw [if_neg h1]
      split
      · exact hInv
      · rename_i t hfind
        by_cases h2 : (t.removed || t.animatingOut) = true
        · rw [if_pos h2]
          exact hInv
        · rw [if_neg h2]
          dsimp only
          by_cases h3 : tid ∈ (computeTileStatus (aliveTiles g.tiles)
              cfg.tileW cfg.tileH cfg.zOffsetX cfg.zOffsetY
              cfg.sideGapFactor).1
          · rw [if_neg (by simpa using h3)]
            by_cases h4 : t.covered = true
            · rw [if_pos h4]
              exact hInv
            · rw [if_neg h4]
              by_cases h5 : TRAY_LIMIT ≤ g.tray.length
              · rw [if_pos h5]
                exact hInv
              · rw [if_neg h5]
                have h5lt : g.tray.length < 4 := by
                  have : ¬ (4 : ℕ) ≤ g.tray.length := h5
                  omega
                have h6 : ¬ TRAY_LIMIT < (g.tray ++
                    [({ trayId := fid, tileId := tid, letterId := t.letterId,
                        glowUntil := now + 520, matchedOut := false } :
                      TrayEntry)]).length := by
                  show ¬ (4 : ℕ) < _
                  rw [List.length_append]
                  simp only [List.length_cons, List.length_nil]
                  omega
                rw [if_neg h6]
                constructor
                · apply trayInv_insert_resolve now g.tray _ hInv.1.1 _ rfl
                  rw [List.map_append, List.map_cons, List.map_nil]
                  rw [List.nodup_append]
                  refine ⟨hInv.1.2, by simp, ?_⟩
                  intro x hx
                  simp only [List.mem_cons, List.not_mem_nil, or_false]
                  intro hxe
                  subst hxe
                  exact hfresh hx
                · intro s hs
                  rcases List.mem_append.1 hs with hs | hs
                  · exact hInv.2 s hs
                  · have : s = ⟨g.tiles, g.tray, g.gameState⟩ := by
                      simpa using hs
                    rw [this]
                    exact hInv.1
          · rw [if_pos (by simpa using h3)]
            exact hInv
  exact ⟨hpick, hundo, hmatch, hboard, hreshuffle⟩

/-- Witness for C10 on a concrete mid-game state. -/
theorem tray_invariant_preserved_witness :
    Inv (pickTile defaultCfg 1000 99 0 roomyGame) ∧ Inv (undo roomyGame) ∧
    Inv (trayMatchFire [10] roomyGame) ∧
    Inv (boardRemoveFire 0 roomyGame) ∧
    Inv (reshuffle (fun _ => 0) roomyGame) :=
  tray_invariant_preserved defaultCfg 1000 99 0 [10] (fun _ => 0) roomyGame
    (by decide) (by decide)

end AlefGame
